import Mathlib

/-!
Shallow embedding of `bin/db2authors.py` (lsst-texmf): the script reads an
ordered roster of author identifiers plus an author/affiliation database and
emits typesetting markup in one of three dialects (aas, spie, adass).

Python machine-level behaviour is made explicit:
* dict subscripting that can miss a key returns an error value (`PyErr.keyError`),
* list subscripting out of range returns `PyErr.indexError`,
* referencing a local variable that was never assigned returns `PyErr.nameError`
  (the locals `state`, `pcode`, `country` of the address parser are assigned
  only conditionally and persist across loop iterations, so they are modelled
  as `Option String` threaded through the run),
* subscripting a Python `str` with a string key returns `PyErr.typeError`.
Output is modelled as the list of lines printed to standard output.
-/

/-- Runtime errors the script can raise, mirroring the Python exceptions. -/
inductive PyErr where
  | keyError (key : String)
  | runtimeError (msg : String)
  | indexError
  | nameError (v : String)
  | typeError (msg : String)
deriving DecidableEq, Repr

/-- One entry of `authordb["authors"]` (authordb.yaml), as read at line 127. -/
structure Author where
  name : String
  initials : String
  orcid : Option String
  email : Option String
  affil : List String
  altaffil : Option (List String)
deriving DecidableEq, Repr

/-- Python dict lookup `db[k]` over an association list (first binding wins). -/
def dbLookup {α : Type} (db : List (String × α)) (k : String) : Option α :=
  (db.find? (fun p => p.1 == k)).map Prod.snd

/-- Split a character list at every character satisfying `p`, keeping empty
pieces (the splitting characters are dropped). -/
def splitByAux (p : Char → Bool) : List Char → List (List Char)
  | [] => [[]]
  | c :: rest =>
    let r := splitByAux p rest
    if p c then [] :: r
    else (c :: r.headD []) :: r.tail

/-- Python `s.split(',')` (line 168): split on each comma, keeping surrounding
whitespace and empty pieces. -/
def pySplitComma (s : String) : List String :=
  (splitByAux (fun c => c == ',') s.data).map (fun l => String.mk l)

/-- Python `s.split()` with no argument (line 175): split on whitespace runs,
dropping empty pieces. -/
def pySplitWs (s : String) : List String :=
  ((splitByAux Char.isWhitespace s.data).map (fun l => String.mk l)).filter
    (fun p => p != "")

/-- Python `\w`: ASCII word character as used by `re.sub(r"\.(\w)", ...)`. -/
def isWordChar (c : Char) : Bool :=
  c.isAlphanum || c == '_'

/-- Worker for `re.sub(r"\s+", "~", s)`: each maximal whitespace run becomes a
single `~`.  The flag records whether the previous character was whitespace. -/
def collapseWsAux : Bool → List Char → List Char
  | _, [] => []
  | inWs, c :: rest =>
    if c.isWhitespace then
      (if inWs then ([] : List Char) else ['~']) ++ collapseWsAux true rest
    else
      c :: collapseWsAux false rest

/-- Python `re.sub(r"\s+", "~", s)` (lines 159 and 165). -/
def pySubWs (s : String) : String :=
  String.mk (collapseWsAux false s.data)

/-- Worker for `re.sub(r"\.(\w)", lambda m: ".~" + m.group(1), s)`: insert `~`
after a dot that is followed by a word character (non-overlapping, left to
right). -/
def dotTildeAux : List Char → List Char
  | [] => []
  | '.' :: c :: rest =>
    if isWordChar c then '.' :: '~' :: c :: dotTildeAux rest
    else '.' :: dotTildeAux (c :: rest)
  | c :: rest => c :: dotTildeAux rest

/-- Python `re.sub(r"\.(\w)", lambda m: ".~" + m.group(1), s)` (line 162). -/
def pySubDotTilde (s : String) : String :=
  String.mk (dotTildeAux s.data)

/-- The conditionally assigned locals of the address parser (`state`, `pcode`,
`country`), `none` while unassigned; they persist across loop iterations. -/
structure AddrBindings where
  state_v : Option String
  pcode_v : Option String
  country_v : Option String
deriving DecidableEq, Repr

/-- Result of one run of the address-parsing block: `tute` and `city` are
assigned unconditionally, the rest live in the bindings. -/
structure AddrResult where
  tute : String
  city : String
  bindings : AddrBindings
deriving DecidableEq, Repr

/-- Lines 168-183: split the affiliation text on commas; the last segment is
`country`, then (if segments remain) a whitespace-split `state [pcode]`
segment, then `city`; `addr[0]` is always `tute`.  `city` is reset to the
empty string each time, while `state`, `pcode` and `country` are only
overwritten when their branch runs (otherwise the previous bindings remain).
`sc[0]` on an all-whitespace segment is an index error. -/
def parseAddr (b : AddrBindings) (addrText : String) : Except PyErr AddrResult :=
  let addr := pySplitComma addrText
  let tute := addr.headD ""
  let ind0 := addr.length - 1
  let b1 :=
    if ind0 > 0 then { b with country_v := some (addr.getD ind0 "") } else b
  let ind1 := if ind0 > 0 then ind0 - 1 else ind0
  if ind1 > 0 then
    let sc := pySplitWs (addr.getD ind1 "")
    match sc.head? with
    | none => Except.error PyErr.indexError
    | some st0 =>
      let pcode := if sc.length == 2 then sc.getD 1 "" else ""
      let b2 := { b1 with state_v := some st0, pcode_v := some pcode }
      let ind2 := ind1 - 1
      let city := if ind2 > 0 then addr.getD ind2 "" else ""
      Except.ok { tute := tute, city := city, bindings := b2 }
  else
    let city := if ind1 > 0 then addr.getD ind1 "" else ""
    Except.ok { tute := tute, city := city, bindings := b1 }

/-- Style parameters fixed by the `--mode` flag (lines 50-70).  The two format
templates are carried as functions. -/
structure Config where
  buffer_affil : Bool
  buffer_authors : Bool
  affil_cmd : String
  author_super : Bool
  affil_form : String → Nat → String → String
  auth_afil_form : String → String → String → String

/-- Default template `\{}[{}]{{{}}}` (line 53). -/
def affil_form_default (cmd : String) (n : Nat) (text : String) : String :=
  "\\" ++ cmd ++ "[" ++ toString n ++ "]" ++ "\x7b" ++ text ++ "\x7d"

/-- Template `\{}{{$^{}${}}}` selected by adass (line 65). -/
def affil_form_adass (cmd : String) (n : Nat) (text : String) : String :=
  "\\" ++ cmd ++ "\x7b$^" ++ toString n ++ "$" ++ text ++ "\x7d"

/-- Default template `{}{}{}` (line 54). -/
def auth_afil_form_default (prev sep ind : String) : String :=
  prev ++ sep ++ ind

/-- Template `{}{}$^{}$` selected by adass (line 66). -/
def auth_afil_form_adass (prev sep ind : String) : String :=
  prev ++ sep ++ "$^" ++ ind ++ "$"

/-- Default mode (aas): inline affiliation blocks, no buffering. -/
def aasConfig : Config :=
  { buffer_affil := false, buffer_authors := false, affil_cmd := "affiliation",
    author_super := false, affil_form := affil_form_default,
    auth_afil_form := auth_afil_form_default }

/-- spie mode (lines 59-61). -/
def spieConfig : Config :=
  { buffer_affil := true, buffer_authors := false, affil_cmd := "affil",
    author_super := false, affil_form := affil_form_default,
    auth_afil_form := auth_afil_form_default }

/-- adass mode (lines 63-70). -/
def adassConfig : Config :=
  { buffer_affil := true, buffer_authors := true, affil_cmd := "affil",
    author_super := true, affil_form := affil_form_adass,
    auth_afil_form := auth_afil_form_adass }

/-- Accumulator of the affiliation loop (lines 132-148): the global
`affilset`, the per-author `affilOutput` batch, and the marker string
`affilAuth` with its pending separator `affilSep`. -/
structure AffilAcc where
  affilset : List String
  affilOutput : List String
  affilAuth : String
  affilSep : String
deriving DecidableEq, Repr

/-- Body of the loop over `auth["affil"]` (lines 138-148): first-seen labels
are appended to `affilset` and their formatted line queued (the dict lookup
`affil[theAffil]` happens after the append, so a missing label still grows
`affilset`); then the 1-based index is concatenated onto the marker. -/
def affilStep (cfg : Config) (affildb : List (String × String))
    (acc : AffilAcc) (theAffil : String) : AffilAcc × Option PyErr :=
  if theAffil ∈ acc.affilset then
    let affilInd := acc.affilset.indexOf theAffil + 1
    ({ acc with
        affilAuth := cfg.auth_afil_form acc.affilAuth acc.affilSep (toString affilInd),
        affilSep := "," }, none)
  else
    let affilset2 := acc.affilset ++ [theAffil]
    match dbLookup affildb theAffil with
    | none => ({ acc with affilset := affilset2 }, some (PyErr.keyError theAffil))
    | some txt =>
      let acc2 := { acc with
        affilset := affilset2,
        affilOutput := acc.affilOutput ++
          [cfg.affil_form cfg.affil_cmd affilset2.length txt] }
      let affilInd := affilset2.indexOf theAffil + 1
      ({ acc2 with
          affilAuth := cfg.auth_afil_form acc2.affilAuth acc2.affilSep (toString affilInd),
          affilSep := "," }, none)

/-- The loop over `auth["affil"]`, stopping at the first error. -/
def affilLoop (cfg : Config) (affildb : List (String × String)) :
    List String → AffilAcc → AffilAcc × Option PyErr
  | [], acc => (acc, none)
  | a :: rest, acc =>
    match affilStep cfg affildb acc a with
    | (acc2, some e) => (acc2, some e)
    | (acc2, none) => affilLoop cfg affildb rest acc2

/-- The `\paperauthor` record template of lines 185-188. -/
def paperauthorLine (initials surname email orc tute city st pc country : String) :
    String :=
  "\\paperauthor\x7b" ++ initials ++ "~" ++ surname ++ "\x7d\x7b" ++ email ++
    "\x7d\x7b" ++ orc ++ "\x7d\x7b" ++ tute ++ "\x7d\x7b\x7d\x7b" ++ city ++
    "\x7d\x7b" ++ st ++ "\x7d\x7b" ++ pc ++ "\x7d\x7b" ++ country ++ "\x7d"

/-- Lines 168-188 after the affiliation loop: parse `affil[affilset[0]]` and
build the `\paperauthor` record; referencing a still-unassigned `state`,
`pcode` or `country` (they are read in that order) is a name error. -/
def addrRecordPhase (affildb : List (String × String)) (b : AddrBindings)
    (affilset : List String) (initials surname email orc : String) :
    Except PyErr (AddrBindings × String) :=
  match affilset.head? with
  | none => Except.error PyErr.indexError
  | some lab0 =>
    match dbLookup affildb lab0 with
    | none => Except.error (PyErr.keyError lab0)
    | some addrText =>
      match parseAddr b addrText with
      | Except.error e => Except.error e
      | Except.ok ar =>
        match ar.bindings.state_v, ar.bindings.pcode_v, ar.bindings.country_v with
        | some sv, some pv, some cv =>
          Except.ok (ar.bindings,
            paperauthorLine initials surname email orc ar.tute ar.city sv pv cv)
        | none, _, _ => Except.error (PyErr.nameError "state")
        | some _, none, _ => Except.error (PyErr.nameError "pcode")
        | some _, some _, none => Except.error (PyErr.nameError "country")

/-- Lines 204-206: for each of the author's labels print
`\<affil_cmd>{affil[label]}`; a missing label is a key error (earlier lines of
the batch are still printed). -/
def printAffilByLabel (cfg : Config) (affildb : List (String × String)) :
    List String → List String × Option PyErr
  | [] => ([], none)
  | lab :: rest =>
    match dbLookup affildb lab with
    | none => ([], some (PyErr.keyError lab))
    | some txt =>
      match printAffilByLabel cfg affildb rest with
      | (lines, e) => (("\\" ++ cfg.affil_cmd ++ "\x7b" ++ txt ++ "\x7d") :: lines, e)

/-- Python `print(*xs, sep="\n")`: one line per element, but a single empty
line when the list is empty. -/
def printStar (xs : List String) : List String :=
  if xs.isEmpty then [""] else xs

/-- The accumulators of the main pass (lines 96 and 117-120) plus the printed
lines and the persistent address-parser bindings. -/
structure LoopState where
  affilset : List String
  authOutput : List String
  allAffil : List String
  pAuthorOutput : List String
  indexOutput : List String
  printed : List String
  bindings : AddrBindings
deriving DecidableEq, Repr

/-- State before the first roster entry. -/
def initState : LoopState :=
  { affilset := [], authOutput := [], allAffil := [], pAuthorOutput := [],
    indexOutput := [], printed := [],
    bindings := { state_v := none, pcode_v := none, country_v := none } }

/-- The initial `affilSep` of an author (lines 134-137): a comma when the
superscript style is active and this is not the last roster entry. -/
def affilSepInit (cfg : Config) (nAuthors anum : Nat) : String :=
  if cfg.author_super && anum < nAuthors - 1 then "," else ""

/-- The affiliation-loop accumulator as initialized at lines 132-137. -/
def affilAcc0 (cfg : Config) (nAuthors anum : Nat) (st : LoopState) : AffilAcc :=
  { affilset := st.affilset, affilOutput := [], affilAuth := "",
    affilSep := affilSepInit cfg nAuthors anum }

/-- Lines 150-154: the bracketed marker when affiliations are buffered,
otherwise the bracketed ORCID when present and non-empty. -/
def orcidFieldOf (cfg : Config) (auth : Author) (acc : AffilAcc) : String :=
  if cfg.buffer_affil then "[" ++ acc.affilAuth ++ "]"
  else
    match auth.orcid with
    | some o => if o != "" then "[" ++ o ++ "]" else ""
    | none => ""

/-- Lines 200-202: the `\altaffiliation` lines of the unbuffered mode. -/
def altLinesOf (auth : Author) : List String :=
  match auth.altaffil with
  | some afs => afs.map (fun af => "\\altaffiliation\x7b" ++ af ++ "\x7d")
  | none => []

/-- Lines 185-207 once the record is built: append the `\paperauthor` and
index records, then either buffer the author fragment (adass), or print the
author command followed by the buffered first-seen affiliation lines (spie) or
by the alternate and per-label affiliation lines (aas). -/
def emitAuthor (cfg : Config) (affildb : List (String × String)) (auth : Author)
    (acc : AffilAcc) (b2 : AddrBindings) (initials surname record : String)
    (st : LoopState) : LoopState × Option PyErr :=
  let st1 := { st with
    affilset := acc.affilset,
    bindings := b2,
    pAuthorOutput := st.pAuthorOutput ++ [record],
    indexOutput := st.indexOutput ++
      ["%\\aindex\x7b" ++ surname ++ "," ++ initials ++ "\x7d"] }
  if cfg.buffer_authors then
    ({ st1 with
        authOutput := st1.authOutput ++ [initials ++ "~" ++ surname ++ acc.affilAuth],
        allAffil := st1.allAffil ++ acc.affilOutput }, none)
  else
    let authorLine :=
      "\\author" ++ orcidFieldOf cfg auth acc ++ "\x7b" ++ initials ++ "~" ++ surname ++ "\x7d"
    if cfg.buffer_affil then
      ({ st1 with
          printed := st1.printed ++ [authorLine] ++ printStar acc.affilOutput ++ [""] },
        none)
    else
      match printAffilByLabel cfg affildb auth.affil with
      | (lines, some e) =>
        ({ st1 with printed := st1.printed ++ [authorLine] ++ altLinesOf auth ++ lines },
          some e)
      | (lines, none) =>
        ({ st1 with
            printed := st1.printed ++ [authorLine] ++ altLinesOf auth ++ lines ++ [""] },
          none)

/-- Body of `for anum, authorid in enumerate(authors)` (lines 123-207).
`nAuthors` is `len(authors)`; `anum` is the zero-based position.  On an error
the partially updated state (the grown `affilset`, any lines already printed)
is returned together with the error. -/
def processAuthor (cfg : Config) (adb : List (String × Author))
    (affildb : List (String × String)) (nAuthors anum : Nat) (authorid : String)
    (st : LoopState) : LoopState × Option PyErr :=
  match dbLookup adb authorid with
  | none =>
    (st, some (PyErr.runtimeError
      ("Author ID " ++ authorid ++ " now defined in author database.")))
  | some auth =>
    match affilLoop cfg affildb auth.affil (affilAcc0 cfg nAuthors anum st) with
    | (acc, some e) => ({ st with affilset := acc.affilset }, some e)
    | (acc, none) =>
      let surname := pySubWs auth.name
      let initials := pySubWs (pySubDotTilde auth.initials)
      match addrRecordPhase affildb st.bindings acc.affilset initials surname
          (auth.email.getD "") (auth.orcid.getD "") with
      | Except.error e => ({ st with affilset := acc.affilset }, some e)
      | Except.ok (b2, record) =>
        emitAuthor cfg affildb auth acc b2 initials surname record st

/-- The main pass over the remaining roster entries, starting at position
`anum`; stops at the first error. -/
def runFrom (cfg : Config) (adb : List (String × Author))
    (affildb : List (String × String)) (nAuthors : Nat) :
    Nat → List String → LoopState → LoopState × Option PyErr
  | _, [], st => (st, none)
  | anum, aid :: rest, st =>
    match processAuthor cfg adb affildb nAuthors anum aid st with
    | (st2, some e) => (st2, some e)
    | (st2, none) => runFrom cfg adb affildb nAuthors (anum + 1) rest st2

/-- Body of the combined `\author{...}` command (lines 211-218): every
fragment is followed by a separator, which is the literal " and " exactly when
the fragment's 1-based position equals `n - 1` (second to last) and a single
space otherwise — including after the final fragment. -/
def combinedBodyAux (n : Nat) : Nat → List String → String
  | _, [] => ""
  | i, f :: rest =>
    f ++ (if i + 1 == n - 1 then " and " else " ") ++ combinedBodyAux n (i + 1) rest

/-- Finalization (lines 209-223), reached only when no error occurred: in
combined mode emit the single author command, the buffered affiliation lines,
the author-listing records, a literal comment and the inert index records. -/
def finalize (cfg : Config) (st : LoopState) : List String :=
  if cfg.buffer_authors then
    ["\\author\x7b" ++ combinedBodyAux st.authOutput.length 0 st.authOutput ++ "\x7d"]
      ++ printStar st.allAffil
      ++ printStar st.pAuthorOutput
      ++ ["% Yes they said to have these index commands commented out."]
      ++ printStar st.indexOutput
  else []

/-- The markup emitted after the banner: the lines printed during the main
pass, plus in combined mode the finalization block; an uncaught error aborts
before finalization. -/
def run (cfg : Config) (adb : List (String × Author))
    (affildb : List (String × String)) (roster : List String) :
    List String × Option PyErr :=
  match runFrom cfg adb affildb roster.length 0 roster initState with
  | (st, some e) => (st.printed, some e)
  | (st, none) => (st.printed ++ finalize cfg st, none)

/-- Python `a[key]` where `a` is a `str`: always a `TypeError`. -/
def pyStrSubscript (_a _key : String) : Except PyErr String :=
  Except.error (PyErr.typeError "string indices must be integers")

/-- Line 107: `"{auth[initials]} {auth[name]}".format(auth=a)` where `a` is a
roster entry — a plain identifier string, whose subscripting fails. -/
def csvName (aid : String) : Except PyErr String :=
  match pyStrSubscript aid "initials" with
  | Except.error e => Except.error e
  | Except.ok i =>
    match pyStrSubscript aid "name" with
    | Except.error e => Except.error e
    | Except.ok n => Except.ok (i ++ " " ++ n)

/-- Lines 105-109: the `WRITE_CSV` branch builds the comma-separated line
from the roster entries themselves (the author database is never consulted). -/
def csvBranch (roster : List String) : Except PyErr String :=
  (roster.mapM csvName).map (fun names => String.intercalate ", " names)

/-- The banner of lines 111-115: the triple-quoted string ends in a newline
and is followed by a bare `print()`. -/
def bannerLines : List String :=
  ["%% DO NOT EDIT THIS FILE. IT IS GENERATED FROM db2authors.py\"",
   "%% Regenerate using:",
   "%%    python $LSST_TEXMF_DIR/bin/db2authors.py > authors.tex",
   "", ""]



def wAuthC8 : Author :=
  { name := "W", initials := "Q.", orcid := none, email := none,
    affil := ["W1"], altaffil := none }

def wStC8 : LoopState := { initState with affilset := ["W0"] }

def wAffdbC8 : List (String × String) :=
  [("W0", "I0, S0 1, C0"), ("W1", "I1, S1 2, C1")]

def wAuthC9 : Author :=
  { name := "E", initials := "F.", orcid := none, email := none,
    affil := [], altaffil := none }

def wAuthC1 : Author :=
  { name := "Z", initials := "Y.", orcid := none, email := none,
    affil := ["Z1"], altaffil := none }

def wStC1 : LoopState := { initState with affilset := ["Z0"] }

def wAffdbC1 : List (String × String) :=
  [("Z0", "IZ, SZ 7, CZ"), ("Z1", "JZ, TZ 8, DZ")]

def cexAuthC1a : Author :=
  { name := "One", initials := "A.", orcid := none, email := none,
    affil := ["A1"], altaffil := none }

def cexAuthC1b : Author :=
  { name := "Two", initials := "B.", orcid := none, email := none,
    affil := ["A2"], altaffil := none }

def cexAdbC1 : List (String × Author) :=
  [("a1", cexAuthC1a), ("a2", cexAuthC1b)]

def cexAffdbC1 : List (String × String) :=
  [("A1", "InstOne, CityOne, SA 1, CountryOne"),
   ("A2", "InstTwo, CityTwo, SB 2, CountryTwo")]

/-- Spec-side definition for the C1 refinement comparison, following the
spec's words: the author-listing record whose four address components come
from parsing the author's own FIRST affiliation label's address text (with
the spec's empty-string defaults for missing fields). -/
def specOwnFirstRecord (affildb : List (String × String)) (auth : Author) :
    Option String :=
  (auth.affil.head?.bind (dbLookup affildb)).bind fun txt =>
    match parseAddr { state_v := none, pcode_v := none, country_v := none } txt with
    | Except.error _ => none
    | Except.ok ar =>
      some (paperauthorLine (pySubWs (pySubDotTilde auth.initials)) (pySubWs auth.name)
        (auth.email.getD "") (auth.orcid.getD "") ar.tute ar.city
        (ar.bindings.state_v.getD "") (ar.bindings.pcode_v.getD "")
        (ar.bindings.country_v.getD ""))

/-- Correspondence between the affiliation index and the list of formatted
affiliation lines: same length, and line `k` is the format of label `k` with
index `k + 1`. -/
def AffInv (cfg : Config) (affildb : List (String × String))
    (s la : List String) : Prop :=
  la.length = s.length ∧
  ∀ k lab, s[k]? = some lab →
    ∃ txt, dbLookup affildb lab = some txt ∧
      la[k]? = some (cfg.affil_form cfg.affil_cmd (k + 1) txt)

def cexAuthC3a : Author :=
  { name := "POne", initials := "P.", orcid := none, email := none,
    affil := ["PL"], altaffil := none }

def cexAuthC3b : Author :=
  { name := "PTwo", initials := "R.", orcid := none, email := none,
    affil := ["PL"], altaffil := none }

def cexAdbC3 : List (String × Author) :=
  [("p1", cexAuthC3a), ("p2", cexAuthC3b)]

def cexAffdbC3 : List (String × String) :=
  [("PL", "InstP, CityP, PA 1, CountryP")]

def wAuthC3a : Author :=
  { name := "MOne", initials := "M.", orcid := none, email := none,
    affil := ["ML"], altaffil := none }

def wAuthC3b : Author :=
  { name := "MTwo", initials := "N.", orcid := none, email := none,
    affil := ["ML"], altaffil := none }

def wAdbC3 : List (String × Author) :=
  [("m1", wAuthC3a), ("m2", wAuthC3b)]

def wAffdbC3 : List (String × String) :=
  [("ML", "IM, SM 3, CM")]

def cexAuthC10 : Author :=
  { name := "QOne", initials := "S.", orcid := none, email := none,
    affil := ["QL"], altaffil := none }

def cexAdbC10 : List (String × Author) := [("q1", cexAuthC10)]

def cexAffdbC10 : List (String × String) :=
  [("QL", "InstQ, CityQ, QA 2, CountryQ")]

def wAuthC10 : Author :=
  { name := "D", initials := "G.", orcid := none, email := none,
    affil := ["DL"], altaffil := none }

def wAffdbC10 : List (String × String) := [("DL", "ID, SD 4, CD")]

def cexAuthC2 : Author :=
  { name := "C", initials := "D.", orcid := none, email := none,
    affil := ["CF"], altaffil := none }

/-- Whole program output (lines printed, and the uncaught error if any):
with `WRITE_CSV` enabled it short-circuits to the single CSV line before the
banner; otherwise banner plus markup. -/
def program (write_csv : Bool) (cfg : Config) (adb : List (String × Author))
    (affildb : List (String × String)) (roster : List String) :
    List String × Option PyErr :=
  if write_csv then
    match csvBranch roster with
    | Except.error e => ([], some e)
    | Except.ok line => ([line], none)
  else
    match run cfg adb affildb roster with
    | (out, e) => (bannerLines ++ out, e)

/-! Helper lemmas: the affiliation index only grows by appending fresh labels. -/

theorem affilStep_affilset (cfg : Config) (affildb : List (String × String))
    (acc : AffilAcc) (a : String) :
    (affilStep cfg affildb acc a).1.affilset = acc.affilset ∨
      (a ∉ acc.affilset ∧
        (affilStep cfg affildb acc a).1.affilset = acc.affilset ++ [a]) := by
  by_cases h : a ∈ acc.affilset
  · left; simp [affilStep, h]
  · right
    refine ⟨h, ?_⟩
    cases hdb : dbLookup affildb a <;> simp [affilStep, h, hdb]

theorem affilLoop_affilset (cfg : Config) (affildb : List (String × String)) :
    ∀ (labels : List String) (acc : AffilAcc),
      ∃ t, (affilLoop cfg affildb labels acc).1.affilset = acc.affilset ++ t
  | [], acc => ⟨[], by simp [affilLoop]⟩
  | a :: rest, acc => by
    rcases haff : affilStep cfg affildb acc a with ⟨acc2, e⟩
    have hstep := affilStep_affilset cfg affildb acc a
    rw [haff] at hstep
    have hstep2 : acc2.affilset = acc.affilset ∨
        (a ∉ acc.affilset ∧ acc2.affilset = acc.affilset ++ [a]) := hstep
    cases e with
    | some e =>
      rcases hstep2 with h | ⟨_, h⟩
      · exact ⟨[], by simp [affilLoop, haff, h]⟩
      · exact ⟨[a], by simp [affilLoop, haff, h]⟩
    | none =>
      obtain ⟨t, ht⟩ := affilLoop_affilset cfg affildb rest acc2
      rcases hstep2 with h | ⟨_, h⟩
      · exact ⟨t, by simp only [affilLoop, haff]; rw [ht, h]⟩
      · exact ⟨[a] ++ t, by
          simp only [affilLoop, haff]
          rw [ht, h, List.append_assoc]⟩

theorem emitAuthor_affilset (cfg : Config) (affildb : List (String × String))
    (auth : Author) (acc : AffilAcc) (b2 : AddrBindings)
    (initials surname record : String) (st : LoopState) :
    (emitAuthor cfg affildb auth acc b2 initials surname record st).1.affilset
      = acc.affilset := by
  unfold emitAuthor
  rcases hp : printAffilByLabel cfg affildb auth.affil with ⟨lines, e2⟩
  by_cases hb : cfg.buffer_authors <;> by_cases hba : cfg.buffer_affil <;>
    cases e2 <;> simp [hp, hb, hba]

theorem processAuthor_affilset (cfg : Config) (adb : List (String × Author))
    (affildb : List (String × String)) (n anum : Nat) (aid : String)
    (st : LoopState) :
    ∃ t, (processAuthor cfg adb affildb n anum aid st).1.affilset
      = st.affilset ++ t := by
  unfold processAuthor
  cases hadb : dbLookup adb aid with
  | none => exact ⟨[], by simp⟩
  | some auth =>
    obtain ⟨t, ht⟩ := affilLoop_affilset cfg affildb auth.affil (affilAcc0 cfg n anum st)
    rcases hl : affilLoop cfg affildb auth.affil (affilAcc0 cfg n anum st) with ⟨acc, e⟩
    rw [hl] at ht
    have ht2 : acc.affilset = st.affilset ++ t := ht
    refine ⟨t, ?_⟩
    cases e with
    | some e =>
      simp only [hl]
      exact ht2
    | none =>
      cases har : addrRecordPhase affildb st.bindings acc.affilset
          (pySubWs (pySubDotTilde auth.initials)) (pySubWs auth.name)
          (auth.email.getD "") (auth.orcid.getD "") with
      | error e =>
        simp only [hl, har]
        exact ht2
      | ok pr =>
        rcases pr with ⟨b2, record⟩
        simp only [hl, har]
        rw [emitAuthor_affilset]
        exact ht2

theorem runFrom_affilset (cfg : Config) (adb : List (String × Author))
    (affildb : List (String × String)) (n : Nat) :
    ∀ (ids : List String) (anum : Nat) (st : LoopState),
      ∃ t, (runFrom cfg adb affildb n anum ids st).1.affilset
        = st.affilset ++ t
  | [], _, st => ⟨[], by simp [runFrom]⟩
  | aid :: rest, anum, st => by
    rcases hp : processAuthor cfg adb affildb n anum aid st with ⟨st2, e⟩
    have hext := processAuthor_affilset cfg adb affildb n anum aid st
    rw [hp] at hext
    obtain ⟨t, ht⟩ := hext
    have ht2 : st2.affilset = st.affilset ++ t := ht
    cases e with
    | some e => exact ⟨t, by simp [runFrom, hp, ht2]⟩
    | none =>
      obtain ⟨u, hu⟩ := runFrom_affilset cfg adb affildb n rest (anum + 1) st2
      exact ⟨t ++ u, by
        simp only [runFrom, hp]
        rw [hu, ht2, List.append_assoc]⟩

theorem affilStep_nodup (cfg : Config) (affildb : List (String × String))
    (acc : AffilAcc) (a : String) (h : acc.affilset.Nodup) :
    (affilStep cfg affildb acc a).1.affilset.Nodup := by
  rcases affilStep_affilset cfg affildb acc a with heq | ⟨hmem, heq⟩
  · rw [heq]; exact h
  · rw [heq]; simp [List.nodup_append, h, hmem]

theorem affilLoop_nodup (cfg : Config) (affildb : List (String × String)) :
    ∀ (labels : List String) (acc : AffilAcc), acc.affilset.Nodup →
      (affilLoop cfg affildb labels acc).1.affilset.Nodup
  | [], acc, h => by simpa [affilLoop] using h
  | a :: rest, acc, h => by
    rcases haff : affilStep cfg affildb acc a with ⟨acc2, e⟩
    have hstep := affilStep_nodup cfg affildb acc a h
    rw [haff] at hstep
    have hstep2 : acc2.affilset.Nodup := hstep
    cases e with
    | some e => simpa [affilLoop, haff] using hstep2
    | none =>
      have := affilLoop_nodup cfg affildb rest acc2 hstep2
      simpa [affilLoop, haff] using this

theorem processAuthor_nodup (cfg : Config) (adb : List (String × Author))
    (affildb : List (String × String)) (n anum : Nat) (aid : String)
    (st : LoopState) (h : st.affilset.Nodup) :
    (processAuthor cfg adb affildb n anum aid st).1.affilset.Nodup := by
  unfold processAuthor
  cases hadb : dbLookup adb aid with
  | none => simpa using h
  | some auth =>
    have hloop := affilLoop_nodup cfg affildb auth.affil (affilAcc0 cfg n anum st) h
    rcases hl : affilLoop cfg affildb auth.affil (affilAcc0 cfg n anum st) with ⟨acc, e⟩
    rw [hl] at hloop
    have hloop2 : acc.affilset.Nodup := hloop
    cases e with
    | some e =>
      simp only [hl]
      exact hloop2
    | none =>
      cases har : addrRecordPhase affildb st.bindings acc.affilset
          (pySubWs (pySubDotTilde auth.initials)) (pySubWs auth.name)
          (auth.email.getD "") (auth.orcid.getD "") with
      | error e =>
        simp only [hl, har]
        exact hloop2
      | ok pr =>
        rcases pr with ⟨b2, record⟩
        simp only [hl, har]
        rw [emitAuthor_affilset]
        exact hloop2

theorem runFrom_nodup (cfg : Config) (adb : List (String × Author))
    (affildb : List (String × String)) (n : Nat) :
    ∀ (ids : List String) (anum : Nat) (st : LoopState), st.affilset.Nodup →
      (runFrom cfg adb affildb n anum ids st).1.affilset.Nodup
  | [], _, st, h => by simpa [runFrom] using h
  | aid :: rest, anum, st, h => by
    rcases hp : processAuthor cfg adb affildb n anum aid st with ⟨st2, e⟩
    have hnd := processAuthor_nodup cfg adb affildb n anum aid st h
    rw [hp] at hnd
    have hnd2 : st2.affilset.Nodup := hnd
    cases e with
    | some e => simpa [runFrom, hp] using hnd2
    | none =>
      have := runFrom_nodup cfg adb affildb n rest (anum + 1) st2 hnd2
      simpa [runFrom, hp] using this

theorem runFrom_append (cfg : Config) (adb : List (String × Author))
    (affildb : List (String × String)) (n : Nat) :
    ∀ (xs ys : List String) (anum : Nat) (st : LoopState),
      runFrom cfg adb affildb n anum (xs ++ ys) st =
        match runFrom cfg adb affildb n anum xs st with
        | (st2, none) => runFrom cfg adb affildb n (anum + xs.length) ys st2
        | (st2, some e) => (st2, some e)
  | [], ys, anum, st => by simp [runFrom]
  | x :: xs, ys, anum, st => by
    rcases hp : processAuthor cfg adb affildb n anum x st with ⟨st2, e⟩
    cases e with
    | some e => simp [runFrom, hp]
    | none =>
      have ih := runFrom_append cfg adb affildb n xs ys (anum + 1) st2
      simp only [List.cons_append, runFrom, hp, List.append_eq]
      rw [ih]
      have harith : anum + 1 + xs.length = anum + (x :: xs).length := by
        simp [List.length_cons]
        omega
      rw [harith]

/-- C8: throughout a run, once an affiliation label has entered the
affiliation index, the index only grows by appending (the old index is a
prefix of every later one), the label's position — and hence its 1-based
index `affilset.index(label) + 1` — never changes, and (when the index held
no duplicates) no duplicate label is ever appended, so every new entry is a
previously unseen label. -/
theorem affil_index_stability (cfg : Config) (adb : List (String × Author))
    (affildb : List (String × String)) (n anum : Nat) (ids : List String)
    (st : LoopState) (l : String) (hmem : l ∈ st.affilset) :
    (runFrom cfg adb affildb n anum ids st).1.affilset.take st.affilset.length
        = st.affilset ∧
      (runFrom cfg adb affildb n anum ids st).1.affilset.indexOf l
        = st.affilset.indexOf l ∧
      (st.affilset.Nodup → (runFrom cfg adb affildb n anum ids st).1.affilset.Nodup) := by
  obtain ⟨t, ht⟩ := runFrom_affilset cfg adb affildb n ids anum st
  refine ⟨?_, ?_, fun h => runFrom_nodup cfg adb affildb n ids anum st h⟩
  · rw [ht]; exact List.take_left _ _
  · rw [ht]; exact List.indexOf_append_of_mem hmem

/-- Witness for C8 at a concrete run that appends one fresh label. -/
theorem affil_index_stability_w :
    "W0" ∈ wStC8.affilset ∧
      ((runFrom aasConfig [("w1", wAuthC8)] wAffdbC8 1 0 ["w1"] wStC8).1.affilset.take
          wStC8.affilset.length = wStC8.affilset ∧
        (runFrom aasConfig [("w1", wAuthC8)] wAffdbC8 1 0 ["w1"] wStC8).1.affilset.indexOf "W0"
          = wStC8.affilset.indexOf "W0" ∧
        (wStC8.affilset.Nodup →
          (runFrom aasConfig [("w1", wAuthC8)] wAffdbC8 1 0 ["w1"] wStC8).1.affilset.Nodup)) :=
  ⟨by decide,
    affil_index_stability aasConfig [("w1", wAuthC8)] wAffdbC8 1 0 ["w1"] wStC8 "W0" (by decide)⟩

/-- C7: when the main pass reaches a roster identifier that has no entry in
the author database (everything before it processed without error), the run
aborts with the RuntimeError whose message embeds that identifier; nothing
beyond the lines already printed is emitted (no finalization happens). -/
theorem unknown_author_aborts (cfg : Config) (adb : List (String × Author))
    (affildb : List (String × String)) (pre post : List String) (aid : String)
    (st : LoopState)
    (hmiss : dbLookup adb aid = none)
    (hpre : runFrom cfg adb affildb (pre ++ aid :: post).length 0 pre initState
      = (st, none)) :
    run cfg adb affildb (pre ++ aid :: post) =
      (st.printed, some (PyErr.runtimeError
        ("Author ID " ++ aid ++ " now defined in author database."))) := by
  unfold run
  rw [runFrom_append cfg adb affildb _ pre (aid :: post) 0 initState, hpre]
  simp [runFrom, processAuthor, hmiss]

/-- Witness for C7: a one-entry roster whose identifier is missing. -/
theorem unknown_author_aborts_w :
    dbLookup ([] : List (String × Author)) "ghost" = none ∧
      run aasConfig [] [] ["ghost"] =
        ([], some (PyErr.runtimeError
          "Author ID ghost now defined in author database.")) :=
  ⟨rfl, by
    have h := unknown_author_aborts aasConfig [] [] [] [] "ghost" initState rfl rfl
    simpa using h⟩

/-- C9: if the first roster entry's author exists but has an empty
affiliation-label list, the run fails with the out-of-range index error from
`affilset[0]` before emitting any markup line, and no author-listing record
is produced. -/
theorem first_author_no_affil_index_error (cfg : Config)
    (adb : List (String × Author)) (affildb : List (String × String))
    (aid : String) (rest : List String) (auth : Author)
    (hfind : dbLookup adb aid = some auth) (haffil : auth.affil = []) :
    run cfg adb affildb (aid :: rest) = ([], some PyErr.indexError) ∧
      (runFrom cfg adb affildb (aid :: rest).length 0 (aid :: rest)
        initState).1.pAuthorOutput = [] := by
  have hpa : processAuthor cfg adb affildb (aid :: rest).length 0 aid initState
      = (initState, some PyErr.indexError) := by
    unfold processAuthor
    simp only [hfind, haffil]
    simp [affilLoop, affilAcc0, addrRecordPhase, initState]
  constructor
  · unfold run
    simp only [runFrom]
    rw [hpa]
    simp [initState]
  · simp only [runFrom]
    rw [hpa]
    simp [initState]

/-- Witness for C9: a single-author roster whose author has no affiliations. -/
theorem first_author_no_affil_index_error_w :
    dbLookup [("e1", wAuthC9)] "e1" = some wAuthC9 ∧ wAuthC9.affil = [] ∧
      (run aasConfig [("e1", wAuthC9)] [] ["e1"] = ([], some PyErr.indexError) ∧
        (runFrom aasConfig [("e1", wAuthC9)] [] 1 0 ["e1"]
          initState).1.pAuthorOutput = []) :=
  ⟨by decide, rfl,
    first_author_no_affil_index_error aasConfig [("e1", wAuthC9)] [] "e1" [] wAuthC9
      (by decide) rfl⟩

theorem emitAuthor_pAuthorOutput (cfg : Config) (affildb : List (String × String))
    (auth : Author) (acc : AffilAcc) (b2 : AddrBindings)
    (initials surname record : String) (st : LoopState) :
    (emitAuthor cfg affildb auth acc b2 initials surname record st).1.pAuthorOutput
      = st.pAuthorOutput ++ [record] := by
  unfold emitAuthor
  rcases hp : printAffilByLabel cfg affildb auth.affil with ⟨lines, e2⟩
  by_cases hb : cfg.buffer_authors <;> by_cases hba : cfg.buffer_affil <;>
    cases e2 <;> simp [hp, hb, hba]

theorem emitAuthor_bindings (cfg : Config) (affildb : List (String × String))
    (auth : Author) (acc : AffilAcc) (b2 : AddrBindings)
    (initials surname record : String) (st : LoopState) :
    (emitAuthor cfg affildb auth acc b2 initials surname record st).1.bindings
      = b2 := by
  unfold emitAuthor
  rcases hp : printAffilByLabel cfg affildb auth.affil with ⟨lines, e2⟩
  by_cases hb : cfg.buffer_authors <;> by_cases hba : cfg.buffer_affil <;>
    cases e2 <;> simp [hp, hb, hba]

theorem emitAuthor_adass (affildb : List (String × String)) (auth : Author)
    (acc : AffilAcc) (b2 : AddrBindings) (initials surname record : String)
    (st : LoopState) :
    emitAuthor adassConfig affildb auth acc b2 initials surname record st =
      ({ st with
          affilset := acc.affilset,
          bindings := b2,
          pAuthorOutput := st.pAuthorOutput ++ [record],
          indexOutput := st.indexOutput ++
            ["%\\aindex\x7b" ++ surname ++ "," ++ initials ++ "\x7d"],
          authOutput := st.authOutput ++ [initials ++ "~" ++ surname ++ acc.affilAuth],
          allAffil := st.allAffil ++ acc.affilOutput }, none) := by
  simp [emitAuthor, adassConfig]

theorem emitAuthor_spie (affildb : List (String × String)) (auth : Author)
    (acc : AffilAcc) (b2 : AddrBindings) (initials surname record : String)
    (st : LoopState) :
    emitAuthor spieConfig affildb auth acc b2 initials surname record st =
      ({ st with
          affilset := acc.affilset,
          bindings := b2,
          pAuthorOutput := st.pAuthorOutput ++ [record],
          indexOutput := st.indexOutput ++
            ["%\\aindex\x7b" ++ surname ++ "," ++ initials ++ "\x7d"],
          printed := st.printed ++
            ["\\author" ++ ("[" ++ acc.affilAuth ++ "]") ++ "\x7b" ++ initials ++ "~" ++ surname ++ "\x7d"]
            ++ printStar acc.affilOutput ++ [""] }, none) := by
  simp [emitAuthor, spieConfig, orcidFieldOf]

theorem processAuthor_ok (cfg : Config) (adb : List (String × Author))
    (affildb : List (String × String)) (n anum : Nat) (aid : String)
    (st st2 : LoopState)
    (h : processAuthor cfg adb affildb n anum aid st = (st2, none)) :
    ∃ auth acc b2 record,
      dbLookup adb aid = some auth ∧
      affilLoop cfg affildb auth.affil (affilAcc0 cfg n anum st) = (acc, none) ∧
      addrRecordPhase affildb st.bindings acc.affilset
        (pySubWs (pySubDotTilde auth.initials)) (pySubWs auth.name)
        (auth.email.getD "") (auth.orcid.getD "") = Except.ok (b2, record) ∧
      emitAuthor cfg affildb auth acc b2 (pySubWs (pySubDotTilde auth.initials))
        (pySubWs auth.name) record st = (st2, none) := by
  unfold processAuthor at h
  cases hadb : dbLookup adb aid with
  | none => rw [hadb] at h; simp at h
  | some auth =>
    rw [hadb] at h
    simp only at h
    rcases hl : affilLoop cfg affildb auth.affil (affilAcc0 cfg n anum st) with ⟨acc, e⟩
    rw [hl] at h
    cases e with
    | some e => simp at h
    | none =>
      simp only at h
      cases har : addrRecordPhase affildb st.bindings acc.affilset
          (pySubWs (pySubDotTilde auth.initials)) (pySubWs auth.name)
          (auth.email.getD "") (auth.orcid.getD "") with
      | error e => rw [har] at h; simp at h
      | ok pr =>
        rcases pr with ⟨b2, record⟩
        rw [har] at h
        simp only at h
        exact ⟨auth, acc, b2, record, rfl, hl, har, h⟩

theorem addrRecordPhase_ok (affildb : List (String × String)) (b : AddrBindings)
    (affilset : List String) (initials surname email orc : String)
    (b2 : AddrBindings) (record : String)
    (h : addrRecordPhase affildb b affilset initials surname email orc
      = Except.ok (b2, record)) :
    ∃ lab0 txt ar sv pv cv,
      affilset.head? = some lab0 ∧
      dbLookup affildb lab0 = some txt ∧
      parseAddr b txt = Except.ok ar ∧
      ar.bindings = ⟨some sv, some pv, some cv⟩ ∧
      b2 = ar.bindings ∧
      record = paperauthorLine initials surname email orc ar.tute ar.city sv pv cv := by
  unfold addrRecordPhase at h
  cases hh : affilset.head? with
  | none => rw [hh] at h; cases h
  | some lab0 =>
    rw [hh] at h
    simp only at h
    cases hdb : dbLookup affildb lab0 with
    | none => rw [hdb] at h; simp only at h; cases h
    | some txt =>
      rw [hdb] at h
      simp only at h
      cases hp : parseAddr b txt with
      | error e => rw [hp] at h; simp only at h; cases h
      | ok ar =>
        rw [hp] at h
        simp only at h
        rcases hbv : ar.bindings with ⟨sv?, pv?, cv?⟩
        rw [hbv] at h
        cases sv? with
        | none => simp at h
        | some sv =>
          cases pv? with
          | none => simp at h
          | some pv =>
            cases cv? with
            | none => simp at h
            | some cv =>
              simp only [Except.ok.injEq, Prod.mk.injEq] at h
              exact ⟨lab0, txt, ar, sv, pv, cv, rfl, hdb, hp, hbv,
                h.1.symm.trans hbv.symm, h.2.symm⟩

/-- C1 counterexample: with two authors having different affiliations, the
second author's emitted `\paperauthor` record carries the first author's
address (InstOne ...), not the record obtained by parsing the second author's
own first affiliation (InstTwo ...). -/
theorem paperauthor_first_seen_cex :
    (runFrom aasConfig cexAdbC1 cexAffdbC1 2 0 ["a1", "a2"]
        initState).1.pAuthorOutput.getD 1 ""
      = "\\paperauthor\x7bB.~Two\x7d\x7b\x7d\x7b\x7d\x7bInstOne\x7d\x7b\x7d\x7b CityOne\x7d\x7bSA\x7d\x7b1\x7d\x7b CountryOne\x7d" ∧
    specOwnFirstRecord cexAffdbC1 cexAuthC1b
      = some "\\paperauthor\x7bB.~Two\x7d\x7b\x7d\x7b\x7d\x7bInstTwo\x7d\x7b\x7d\x7b CityTwo\x7d\x7bSB\x7d\x7b2\x7d\x7b CountryTwo\x7d" ∧
    ("\\paperauthor\x7bB.~Two\x7d\x7b\x7d\x7b\x7d\x7bInstOne\x7d\x7b\x7d\x7b CityOne\x7d\x7bSA\x7d\x7b1\x7d\x7b CountryOne\x7d" : String)
      ≠ "\\paperauthor\x7bB.~Two\x7d\x7b\x7d\x7b\x7d\x7bInstTwo\x7d\x7b\x7d\x7b CityTwo\x7d\x7bSB\x7d\x7b2\x7d\x7b CountryTwo\x7d" := by
  decide

/-- C1 amended: for every successfully processed author, exactly one
author-listing record is appended, and that record (and the new parser
bindings) are computed by the address/record phase from the FIRST label of
the affiliation index as it stood when the author was reached — not from the
author's own first affiliation label. -/
theorem paperauthor_first_seen (cfg : Config) (adb : List (String × Author))
    (affildb : List (String × String)) (n anum : Nat) (aid : String)
    (auth : Author) (st st2 : LoopState) (L : String) (rest : List String)
    (hadb : dbLookup adb aid = some auth)
    (hset : st.affilset = L :: rest)
    (h : processAuthor cfg adb affildb n anum aid st = (st2, none)) :
    st2.pAuthorOutput = st.pAuthorOutput ++ [st2.pAuthorOutput.getLastD ""] ∧
      addrRecordPhase affildb st.bindings [L]
          (pySubWs (pySubDotTilde auth.initials)) (pySubWs auth.name)
          (auth.email.getD "") (auth.orcid.getD "")
        = Except.ok (st2.bindings, st2.pAuthorOutput.getLastD "") := by
  obtain ⟨auth2, acc, b2, record, hadb2, hloop, haddr, hemit⟩ :=
    processAuthor_ok cfg adb affildb n anum aid st st2 h
  have h12 : some auth = some auth2 := hadb.symm.trans hadb2
  have hauth : auth2 = auth := (Option.some.inj h12).symm
  rw [hauth] at hloop haddr hemit
  obtain ⟨t, ht⟩ := affilLoop_affilset cfg affildb auth.affil (affilAcc0 cfg n anum st)
  rw [hloop] at ht
  have ht2 : acc.affilset = st.affilset ++ t := ht
  have hhead : acc.affilset = L :: (rest ++ t) := by rw [ht2, hset]; simp
  have haddr2 : addrRecordPhase affildb st.bindings [L]
      (pySubWs (pySubDotTilde auth.initials)) (pySubWs auth.name)
      (auth.email.getD "") (auth.orcid.getD "") = Except.ok (b2, record) := by
    rw [hhead] at haddr
    exact haddr
  have hpa : st2.pAuthorOutput = st.pAuthorOutput ++ [record] := by
    have hq := emitAuthor_pAuthorOutput cfg affildb auth acc b2
      (pySubWs (pySubDotTilde auth.initials)) (pySubWs auth.name) record st
    rw [hemit] at hq
    exact hq
  have hbind : st2.bindings = b2 := by
    have hq := emitAuthor_bindings cfg affildb auth acc b2
      (pySubWs (pySubDotTilde auth.initials)) (pySubWs auth.name) record st
    rw [hemit] at hq
    exact hq
  have hlast : st2.pAuthorOutput.getLastD "" = record := by
    rw [hpa]; exact List.getLastD_concat _ _ _
  rw [hlast, hbind, hpa]
  exact ⟨rfl, haddr2⟩

/-- Witness for C1 amended: a state whose affiliation index already starts
with label Z0; the processed author's own first label is Z1, yet the record
comes from Z0. -/
theorem paperauthor_first_seen_w :
    (processAuthor aasConfig [("z1", wAuthC1)] wAffdbC1 1 0 "z1" wStC1).1.pAuthorOutput
        = wStC1.pAuthorOutput ++
          [(processAuthor aasConfig [("z1", wAuthC1)] wAffdbC1 1 0 "z1"
              wStC1).1.pAuthorOutput.getLastD ""] ∧
      addrRecordPhase wAffdbC1 wStC1.bindings ["Z0"]
          (pySubWs (pySubDotTilde wAuthC1.initials)) (pySubWs wAuthC1.name)
          (wAuthC1.email.getD "") (wAuthC1.orcid.getD "")
        = Except.ok
            ((processAuthor aasConfig [("z1", wAuthC1)] wAffdbC1 1 0 "z1" wStC1).1.bindings,
              (processAuthor aasConfig [("z1", wAuthC1)] wAffdbC1 1 0 "z1"
                wStC1).1.pAuthorOutput.getLastD "") :=
  paperauthor_first_seen aasConfig [("z1", wAuthC1)] wAffdbC1 1 0 "z1" wAuthC1 wStC1
    ((processAuthor aasConfig [("z1", wAuthC1)] wAffdbC1 1 0 "z1" wStC1).1) "Z0" []
    (by decide) (by decide) (by decide)

theorem affilStep_AffInv (cfg : Config) (affildb : List (String × String))
    (acc acc2 : AffilAcc) (a : String) (pre : List String)
    (h : affilStep cfg affildb acc a = (acc2, none))
    (hinv : AffInv cfg affildb acc.affilset (pre ++ acc.affilOutput)) :
    AffInv cfg affildb acc2.affilset (pre ++ acc2.affilOutput) := by
  unfold affilStep at h
  by_cases hm : a ∈ acc.affilset
  · rw [if_pos hm] at h
    simp only [Prod.mk.injEq] at h
    obtain ⟨h1, -⟩ := h
    rw [← h1]
    exact hinv
  · rw [if_neg hm] at h
    cases hdb : dbLookup affildb a with
    | none => rw [hdb] at h; simp at h
    | some txt =>
      rw [hdb] at h
      simp only [Prod.mk.injEq] at h
      obtain ⟨h1, -⟩ := h
      rw [← h1]
      obtain ⟨hlen, hpt⟩ := hinv
      have hla : pre ++ (acc.affilOutput ++
          [cfg.affil_form cfg.affil_cmd (acc.affilset ++ [a]).length txt])
          = (pre ++ acc.affilOutput) ++
            [cfg.affil_form cfg.affil_cmd (acc.affilset ++ [a]).length txt] := by
        rw [List.append_assoc]
      constructor
      · simp only [hla]
        simp only [List.length_append, List.length_cons, List.length_nil] at hlen ⊢
        omega
      · intro k lab hk
        simp only [hla]
        rcases Nat.lt_trichotomy k acc.affilset.length with hlt | heq | hgt
        · rw [List.getElem?_append_left hlt] at hk
          obtain ⟨txt2, hdb2, hget2⟩ := hpt k lab hk
          refine ⟨txt2, hdb2, ?_⟩
          rw [List.getElem?_append_left (by rw [hlen]; exact hlt)]
          exact hget2
        · subst heq
          rw [List.getElem?_concat_length] at hk
          obtain rfl : a = lab := Option.some.inj hk
          refine ⟨txt, hdb, ?_⟩
          have hlen2 : acc.affilset.length = (pre ++ acc.affilOutput).length := hlen.symm
          rw [hlen2, List.getElem?_concat_length]
          congr 2
          simp [← hlen2]
        · exfalso
          have hnone : (acc.affilset ++ [a])[k]? = none := by
            apply List.getElem?_eq_none
            simp
            omega
          rw [hnone] at hk
          cases hk

theorem affilLoop_AffInv (cfg : Config) (affildb : List (String × String)) :
    ∀ (labels : List String) (acc acc2 : AffilAcc) (pre : List String),
      affilLoop cfg affildb labels acc = (acc2, none) →
      AffInv cfg affildb acc.affilset (pre ++ acc.affilOutput) →
      AffInv cfg affildb acc2.affilset (pre ++ acc2.affilOutput)
  | [], acc, acc2, pre, h, hinv => by
    simp only [affilLoop, Prod.mk.injEq] at h
    rw [← h.1]
    exact hinv
  | a :: labels, acc, acc2, pre, h, hinv => by
    rcases hs : affilStep cfg affildb acc a with ⟨accm, e⟩
    simp only [affilLoop, hs] at h
    cases e with
    | some e => simp at h
    | none =>
      exact affilLoop_AffInv cfg affildb labels accm acc2 pre h
        (affilStep_AffInv cfg affildb acc accm a pre hs hinv)

theorem processAuthor_adass_AffInv (adb : List (String × Author))
    (affildb : List (String × String)) (n anum : Nat) (aid : String)
    (st st2 : LoopState)
    (h : processAuthor adassConfig adb affildb n anum aid st = (st2, none))
    (hinv : AffInv adassConfig affildb st.affilset st.allAffil) :
    AffInv adassConfig affildb st2.affilset st2.allAffil := by
  obtain ⟨auth, acc, b2, record, hadb, hloop, haddr, hemit⟩ :=
    processAuthor_ok adassConfig adb affildb n anum aid st st2 h
  rw [emitAuthor_adass] at hemit
  simp only [Prod.mk.injEq] at hemit
  obtain ⟨h1, -⟩ := hemit
  rw [← h1]
  have hinv0 : AffInv adassConfig affildb (affilAcc0 adassConfig n anum st).affilset
      (st.allAffil ++ (affilAcc0 adassConfig n anum st).affilOutput) := by
    simpa [affilAcc0] using hinv
  have hres := affilLoop_AffInv adassConfig affildb auth.affil _ acc st.allAffil hloop hinv0
  simpa using hres

theorem processAuthor_adass_printed (adb : List (String × Author))
    (affildb : List (String × String)) (n anum : Nat) (aid : String)
    (st st2 : LoopState)
    (h : processAuthor adassConfig adb affildb n anum aid st = (st2, none)) :
    st2.printed = st.printed := by
  obtain ⟨auth, acc, b2, record, hadb, hloop, haddr, hemit⟩ :=
    processAuthor_ok adassConfig adb affildb n anum aid st st2 h
  rw [emitAuthor_adass] at hemit
  simp only [Prod.mk.injEq] at hemit
  rw [← hemit.1]

theorem runFrom_adass_AffInv (adb : List (String × Author))
    (affildb : List (String × String)) (n : Nat) :
    ∀ (ids : List String) (anum : Nat) (st st2 : LoopState),
      runFrom adassConfig adb affildb n anum ids st = (st2, none) →
      AffInv adassConfig affildb st.affilset st.allAffil →
      AffInv adassConfig affildb st2.affilset st2.allAffil
  | [], _, st, st2, h, hinv => by
    simp only [runFrom, Prod.mk.injEq] at h
    rw [← h.1]
    exact hinv
  | aid :: rest, anum, st, st2, h, hinv => by
    rcases hp : processAuthor adassConfig adb affildb n anum aid st with ⟨stm, e⟩
    simp only [runFrom, hp] at h
    cases e with
    | some e => simp at h
    | none =>
      exact runFrom_adass_AffInv adb affildb n rest (anum + 1) stm st2 h
        (processAuthor_adass_AffInv adb affildb n anum aid st stm hp hinv)

theorem runFrom_adass_printed (adb : List (String × Author))
    (affildb : List (String × String)) (n : Nat) :
    ∀ (ids : List String) (anum : Nat) (st st2 : LoopState),
      runFrom adassConfig adb affildb n anum ids st = (st2, none) →
      st2.printed = st.printed
  | [], _, st, st2, h => by
    simp only [runFrom, Prod.mk.injEq] at h
    rw [← h.1]
  | aid :: rest, anum, st, st2, h => by
    rcases hp : processAuthor adassConfig adb affildb n anum aid st with ⟨stm, e⟩
    simp only [runFrom, hp] at h
    cases e with
    | some e => simp at h
    | none =>
      rw [runFrom_adass_printed adb affildb n rest (anum + 1) stm st2 h]
      exact processAuthor_adass_printed adb affildb n anum aid st stm hp

/-- C3 counterexample: in the default (aas) output mode with two authors
sharing one affiliation label, the per-author affiliation line appears twice
in the output, and the indexed formatted line (queued by the deduplicator)
appears zero times — not "exactly once" in "every output mode". -/
theorem affil_dedup_cex :
    (run aasConfig cexAdbC3 cexAffdbC3 ["p1", "p2"]).1.count
        "\\affiliation\x7bInstP, CityP, PA 1, CountryP\x7d" = 2 ∧
      (run aasConfig cexAdbC3 cexAffdbC3 ["p1", "p2"]).1.count
        (affil_form_default "affiliation" 1 "InstP, CityP, PA 1, CountryP") = 0 := by
  decide

/-- Helper for C3, adass side: after a successful main pass the emitted
affiliation block contains no duplicate labels, has one line per distinct
label, and line `k` is exactly the formatted line of the label first seen at
position `k` (rendered with index `k + 1`); the run's output is the
finalization of that state. -/
theorem adass_dedup_run (adb : List (String × Author))
    (affildb : List (String × String)) (roster : List String) (st : LoopState)
    (h : runFrom adassConfig adb affildb roster.length 0 roster initState
      = (st, none)) :
    st.affilset.Nodup ∧
      st.allAffil.length = st.affilset.length ∧
      (∀ k lab, st.affilset[k]? = some lab →
        ∃ txt, dbLookup affildb lab = some txt ∧
          st.allAffil[k]? = some (affil_form_adass "affil" (k + 1) txt)) ∧
      run adassConfig adb affildb roster = (finalize adassConfig st, none) := by
  have hinv0 : AffInv adassConfig affildb initState.affilset initState.allAffil := by
    constructor
    · simp [initState]
    · intro k lab hk
      simp [initState] at hk
  have hinv := runFrom_adass_AffInv adb affildb roster.length roster 0 initState st h hinv0
  have hnd : st.affilset.Nodup := by
    have hq := runFrom_nodup adassConfig adb affildb roster.length roster 0 initState
      (by simp [initState])
    rw [h] at hq
    exact hq
  have hpr : st.printed = [] := by
    have hq := runFrom_adass_printed adb affildb roster.length roster 0 initState st h
    simpa [initState] using hq
  refine ⟨hnd, hinv.1, ?_, ?_⟩
  · intro k lab hk
    obtain ⟨txt, h1, h2⟩ := hinv.2 k lab hk
    exact ⟨txt, h1, h2⟩
  · unfold run
    rw [h]
    simp [hpr]

theorem affilLoop_second_pass (cfg : Config) (affildb : List (String × String)) :
    ∀ (labels : List String) (acc1 accR : AffilAcc) (out2 : List String),
      affilLoop cfg affildb labels acc1 = (accR, none) →
      affilLoop cfg affildb labels
          ⟨accR.affilset, out2, acc1.affilAuth, acc1.affilSep⟩ =
        (⟨accR.affilset, out2, accR.affilAuth, accR.affilSep⟩, none)
  | [], acc1, accR, out2, h => by
    simp only [affilLoop, Prod.mk.injEq] at h
    obtain ⟨h1, -⟩ := h
    subst h1
    simp [affilLoop]
  | a :: labels, acc1, accR, out2, h => by
    rcases hs1 : affilStep cfg affildb acc1 a with ⟨acc1b, e1⟩
    simp only [affilLoop, hs1] at h
    cases e1 with
    | some e => simp at h
    | none =>
      simp only at h
      obtain ⟨t, htail⟩ := affilLoop_affilset cfg affildb labels acc1b
      rw [h] at htail
      have htail2 : accR.affilset = acc1b.affilset ++ t := htail
      unfold affilStep at hs1
      by_cases hm : a ∈ acc1.affilset
      · rw [if_pos hm] at hs1
        simp only [Prod.mk.injEq] at hs1
        obtain ⟨hb, -⟩ := hs1
        subst hb
        have hm2 : a ∈ accR.affilset := by
          rw [htail2]
          simp only [List.mem_append]
          exact Or.inl hm
        have hidx : accR.affilset.indexOf a = acc1.affilset.indexOf a := by
          rw [htail2]
          exact List.indexOf_append_of_mem hm
        have hs2 : affilStep cfg affildb ⟨accR.affilset, out2, acc1.affilAuth, acc1.affilSep⟩ a =
            (⟨accR.affilset, out2,
              cfg.auth_afil_form acc1.affilAuth acc1.affilSep
                (toString (acc1.affilset.indexOf a + 1)), ","⟩, none) := by
          unfold affilStep
          rw [if_pos (by simpa using hm2)]
          simp [hidx]
        simp only [affilLoop, hs2]
        exact affilLoop_second_pass cfg affildb labels _ accR out2 h
      · rw [if_neg hm] at hs1
        cases hdb : dbLookup affildb a with
        | none => rw [hdb] at hs1; simp at hs1
        | some txt =>
          rw [hdb] at hs1
          simp only [Prod.mk.injEq] at hs1
          obtain ⟨hb, -⟩ := hs1
          subst hb
          have hma : a ∈ acc1.affilset ++ [a] := by
            simp
          have hm2 : a ∈ accR.affilset := by
            rw [htail2]
            simp
          have hidx : accR.affilset.indexOf a = (acc1.affilset ++ [a]).indexOf a := by
            rw [htail2]
            exact List.indexOf_append_of_mem hma
          have hs2 : affilStep cfg affildb ⟨accR.affilset, out2, acc1.affilAuth, acc1.affilSep⟩ a =
              (⟨accR.affilset, out2,
                cfg.auth_afil_form acc1.affilAuth acc1.affilSep
                  (toString ((acc1.affilset ++ [a]).indexOf a + 1)), ","⟩, none) := by
            unfold affilStep
            rw [if_pos (by simpa using hm2)]
            simp [hidx]
          simp only [affilLoop, hs2]
          exact affilLoop_second_pass cfg affildb labels _ accR out2 h

theorem parseAddr_idem (b : AddrBindings) (t : String) (ar : AddrResult)
    (h : parseAddr b t = Except.ok ar) :
    parseAddr ar.bindings t = Except.ok ⟨ar.tute, ar.city, ar.bindings⟩ := by
  simp only [parseAddr] at h ⊢
  by_cases h0 : (pySplitComma t).length - 1 > 0
  · simp only [if_pos h0] at h ⊢
    by_cases h1 : (pySplitComma t).length - 1 - 1 > 0
    · simp only [if_pos h1] at h ⊢
      cases hsc : (pySplitWs ((pySplitComma t).getD ((pySplitComma t).length - 1 - 1) "")).head? with
      | none =>
        rw [hsc] at h
        simp only at h
        cases h
      | some st0 =>
        rw [hsc] at h
        simp only at h
        injection h with h2
        subst h2
        rfl
    · simp only [if_neg h1] at h ⊢
      injection h with h2
      subst h2
      rfl
  · simp only [if_neg h0] at h ⊢
    injection h with h2
    subst h2
    rfl

/-- Helper for C10, spie side: a roster holding the same identifier twice
emits an author command for each occurrence; the second occurrence
contributes exactly three lines — an author command identical to the first
one's (so its bracketed marker reuses the indices assigned at the first
occurrence), one empty line from printing the empty batch of fresh
affiliation lines, and the blank separator — re-emitting no affiliation
line. -/
theorem spie_dup_run (adb : List (String × Author))
    (affildb : List (String × String)) (aid : String) (out : List String)
    (h : run spieConfig adb affildb [aid, aid] = (out, none)) :
    4 ≤ out.length ∧ out.drop (out.length - 3) = [out.headD "", "", ""] := by
  unfold run at h
  rcases hr : runFrom spieConfig adb affildb ([aid, aid]).length 0 [aid, aid] initState
    with ⟨stF, e⟩
  rw [hr] at h
  cases e with
  | some e => simp at h
  | none =>
    simp only [Prod.mk.injEq] at h
    obtain ⟨hout, -⟩ := h
    have hfin : finalize spieConfig stF = [] := by simp [finalize, spieConfig]
    rw [hfin, List.append_nil] at hout
    simp only [runFrom] at hr
    rcases h1 : processAuthor spieConfig adb affildb ([aid, aid]).length 0 aid initState
      with ⟨st1, e1⟩
    rw [h1] at hr
    cases e1 with
    | some e => simp at hr
    | none =>
      simp only at hr
      rcases h2 : processAuthor spieConfig adb affildb ([aid, aid]).length 1 aid st1
        with ⟨st2, e2⟩
      rw [h2] at hr
      cases e2 with
      | some e => simp at hr
      | none =>
        simp only [Prod.mk.injEq] at hr
        obtain ⟨hstF, -⟩ := hr
        obtain ⟨auth, acc, b2, record, hadb, hloop, haddr, hemit⟩ :=
          processAuthor_ok spieConfig adb affildb ([aid, aid]).length 0 aid initState st1 h1
        rw [emitAuthor_spie] at hemit
        simp only [Prod.mk.injEq] at hemit
        obtain ⟨hlit, -⟩ := hemit
        obtain ⟨lab0, txt, ar, sv, pv, cv, hhead, hdb, hparse, hbv, hb2, hrec⟩ :=
          addrRecordPhase_ok affildb initState.bindings acc.affilset
            (pySubWs (pySubDotTilde auth.initials)) (pySubWs auth.name)
            (auth.email.getD "") (auth.orcid.getD "") b2 record haddr
        have hloop2 : affilLoop spieConfig affildb auth.affil
            (affilAcc0 spieConfig ([aid, aid]).length 1 st1) =
            (⟨acc.affilset, [], acc.affilAuth, acc.affilSep⟩, none) := by
          have hsp := affilLoop_second_pass spieConfig affildb auth.affil
            (affilAcc0 spieConfig ([aid, aid]).length 0 initState) acc [] hloop
          rw [← hlit]
          exact hsp
        have hstb : st1.bindings = b2 := by
          rw [← hlit]
        have haddr2 : addrRecordPhase affildb st1.bindings acc.affilset
            (pySubWs (pySubDotTilde auth.initials)) (pySubWs auth.name)
            (auth.email.getD "") (auth.orcid.getD "") = Except.ok (b2, record) := by
          rw [hstb, hb2]
          unfold addrRecordPhase
          rw [hhead]
          simp only
          rw [hdb]
          simp only
          rw [parseAddr_idem initState.bindings txt ar hparse]
          simp only
          rw [hbv]
          simp only
          rw [hrec]
        have hpa2 : processAuthor spieConfig adb affildb ([aid, aid]).length 1 aid st1 =
            ({ st1 with
                affilset := acc.affilset,
                bindings := b2,
                pAuthorOutput := st1.pAuthorOutput ++ [record],
                indexOutput := st1.indexOutput ++
                  ["%\\aindex\x7b" ++ pySubWs auth.name ++ "," ++
                    pySubWs (pySubDotTilde auth.initials) ++ "\x7d"],
                printed := st1.printed ++
                  ["\\author" ++ ("[" ++ acc.affilAuth ++ "]") ++ "\x7b" ++
                    pySubWs (pySubDotTilde auth.initials) ++ "~" ++ pySubWs auth.name ++ "\x7d"]
                  ++ printStar [] ++ [""] }, none) := by
          unfold processAuthor
          rw [hadb]
          simp only
          rw [hloop2]
          simp only
          rw [haddr2]
          simp only
          rw [emitAuthor_spie]
        rw [hpa2] at h2
        simp only [Prod.mk.injEq] at h2
        obtain ⟨hlit2, -⟩ := h2
        have hout2 : out =
            (([] ++ ["\\author" ++ ("[" ++ acc.affilAuth ++ "]") ++ "\x7b" ++
                pySubWs (pySubDotTilde auth.initials) ++ "~" ++ pySubWs auth.name ++ "\x7d"]
              ++ printStar acc.affilOutput ++ [""])
              ++ ["\\author" ++ ("[" ++ acc.affilAuth ++ "]") ++ "\x7b" ++
                pySubWs (pySubDotTilde auth.initials) ++ "~" ++ pySubWs auth.name ++ "\x7d"]
              ++ printStar [] ++ [""]) := by
          rw [← hout, ← hstF, ← hlit2]
          simp only
          rw [← hlit]
          simp [initState, printStar]
        have hp1 : 1 ≤ (printStar acc.affilOutput).length := by
          cases acc.affilOutput <;> simp [printStar]
        constructor
        · rw [hout2]
          simp only [List.length_append, List.length_cons, List.length_nil, List.nil_append,
            printStar]
          omega
        · rw [hout2]
          have hsplit : (([] ++ ["\\author" ++ ("[" ++ acc.affilAuth ++ "]") ++ "\x7b" ++
                pySubWs (pySubDotTilde auth.initials) ++ "~" ++ pySubWs auth.name ++ "\x7d"]
              ++ printStar acc.affilOutput ++ [""])
              ++ ["\\author" ++ ("[" ++ acc.affilAuth ++ "]") ++ "\x7b" ++
                pySubWs (pySubDotTilde auth.initials) ++ "~" ++ pySubWs auth.name ++ "\x7d"]
              ++ printStar [] ++ [""]) =
              (["\\author" ++ ("[" ++ acc.affilAuth ++ "]") ++ "\x7b" ++
                pySubWs (pySubDotTilde auth.initials) ++ "~" ++ pySubWs auth.name ++ "\x7d"]
              ++ printStar acc.affilOutput ++ [""]) ++
              (["\\author" ++ ("[" ++ acc.affilAuth ++ "]") ++ "\x7b" ++
                pySubWs (pySubDotTilde auth.initials) ++ "~" ++ pySubWs auth.name ++ "\x7d",
                "", ""]) := by
            simp [printStar]
          rw [hsplit]
          have hlen : ((["\\author" ++ ("[" ++ acc.affilAuth ++ "]") ++ "\x7b" ++
                pySubWs (pySubDotTilde auth.initials) ++ "~" ++ pySubWs auth.name ++ "\x7d"]
              ++ printStar acc.affilOutput ++ [""]) ++
              (["\\author" ++ ("[" ++ acc.affilAuth ++ "]") ++ "\x7b" ++
                pySubWs (pySubDotTilde auth.initials) ++ "~" ++ pySubWs auth.name ++ "\x7d",
                "", ""])).length - 3 =
              (["\\author" ++ ("[" ++ acc.affilAuth ++ "]") ++ "\x7b" ++
                pySubWs (pySubDotTilde auth.initials) ++ "~" ++ pySubWs auth.name ++ "\x7d"]
              ++ printStar acc.affilOutput ++ [""]).length := by
            simp only [List.length_append, List.length_cons, List.length_nil]
            omega
          rw [hlen, List.drop_left]
          simp

/-- C10 counterexample: in the default (aas) mode a roster repeating one
identifier re-emits the author's affiliation line for the second occurrence,
so the output holds it twice. -/
theorem dup_author_cex :
    (run aasConfig cexAdbC10 cexAffdbC10 ["q1", "q1"]).1.count
        "\\affiliation\x7bInstQ, CityQ, QA 2, CountryQ\x7d" = 2 := by
  decide

theorem affilStep_adass_affilAuth (affildb : List (String × String))
    (acc : AffilAcc) (a : String) :
    ∃ u, (affilStep adassConfig affildb acc a).1.affilAuth = acc.affilAuth ++ u := by
  unfold affilStep
  by_cases hm : a ∈ acc.affilset
  · rw [if_pos hm]
    refine ⟨acc.affilSep ++ ("$^" ++ (toString (acc.affilset.indexOf a + 1) ++ "$")), ?_⟩
    simp [adassConfig, auth_afil_form_adass, String.append_assoc]
  · rw [if_neg hm]
    cases hdb : dbLookup affildb a with
    | none =>
      refine ⟨"", ?_⟩
      simp [String.append_empty]
    | some txt =>
      refine ⟨acc.affilSep ++ ("$^" ++
        (toString ((acc.affilset ++ [a]).indexOf a + 1) ++ "$")), ?_⟩
      simp [adassConfig, auth_afil_form_adass, String.append_assoc]

theorem affilLoop_adass_affilAuth (affildb : List (String × String)) :
    ∀ (labels : List String) (acc : AffilAcc),
      ∃ u, (affilLoop adassConfig affildb labels acc).1.affilAuth
        = acc.affilAuth ++ u
  | [], acc => ⟨"", by simp [affilLoop, String.append_empty]⟩
  | a :: labels, acc => by
    rcases hs : affilStep adassConfig affildb acc a with ⟨acc1, e1⟩
    have hstep := affilStep_adass_affilAuth affildb acc a
    rw [hs] at hstep
    obtain ⟨u1, hu1⟩ := hstep
    have hu1b : acc1.affilAuth = acc.affilAuth ++ u1 := hu1
    cases e1 with
    | some e =>
      refine ⟨u1, ?_⟩
      simp only [affilLoop, hs]
      exact hu1b
    | none =>
      obtain ⟨u2, hu2⟩ := affilLoop_adass_affilAuth affildb labels acc1
      refine ⟨u1 ++ u2, ?_⟩
      simp only [affilLoop, hs]
      rw [hu2, hu1b, String.append_assoc]

/-- C5 counterexample: in the superscript (adass) style, for a non-last
author with a single affiliation the marker is "," followed by the
superscript index — the extra comma is a LEADING comma on the marker, not a
trailing one (the marker does not end with a comma). -/
theorem marker_comma_cex :
    (affilLoop adassConfig [("L", "T")] ["L"]
        { affilset := [], affilOutput := [], affilAuth := "", affilSep := "," }).1.affilAuth
      = ",$^1$" ∧
      (",$^1$").data.getLast? = some '$' ∧
      (",$^1$").data.headD ' ' = ',' ∧
      (",$^1$" : String) ≠ "$^1$," := by
  decide

/-- C5 amended: in the superscript (adass) style, for an author with at least
one affiliation the extra comma is PREPENDED to the marker when the author is
not last in the roster (the marker starts with ",$^"), and for the last
author no such comma appears (the marker starts with "$^"). -/
theorem marker_comma_amended (affildb : List (String × String))
    (nAuthors anum : Nat) (st : LoopState) (l : String) (labels : List String)
    (acc2 : AffilAcc)
    (h : affilLoop adassConfig affildb (l :: labels)
      (affilAcc0 adassConfig nAuthors anum st) = (acc2, none)) :
    (anum < nAuthors - 1 → ∃ u, acc2.affilAuth = "," ++ ("$^" ++ u)) ∧
      (¬ anum < nAuthors - 1 → ∃ u, acc2.affilAuth = "$^" ++ u) := by
  rcases hs : affilStep adassConfig affildb (affilAcc0 adassConfig nAuthors anum st) l
    with ⟨acc1, e1⟩
  simp only [affilLoop, hs] at h
  cases e1 with
  | some e => simp at h
  | none =>
    simp only at h
    have hauth1 : ∃ idx : Nat, acc1.affilAuth =
        auth_afil_form_adass "" (affilSepInit adassConfig nAuthors anum) (toString idx) := by
      unfold affilStep at hs
      by_cases hm : l ∈ (affilAcc0 adassConfig nAuthors anum st).affilset
      · rw [if_pos hm] at hs
        simp only [Prod.mk.injEq] at hs
        obtain ⟨hb, -⟩ := hs
        exact ⟨(affilAcc0 adassConfig nAuthors anum st).affilset.indexOf l + 1,
          by rw [← hb]; rfl⟩
      · rw [if_neg hm] at hs
        cases hdb : dbLookup affildb l with
        | none => rw [hdb] at hs; simp at hs
        | some txt =>
          rw [hdb] at hs
          simp only [Prod.mk.injEq] at hs
          obtain ⟨hb, -⟩ := hs
          exact ⟨((affilAcc0 adassConfig nAuthors anum st).affilset ++ [l]).indexOf l + 1,
            by rw [← hb]; rfl⟩
    obtain ⟨idx, hidx⟩ := hauth1
    obtain ⟨u2, hu2⟩ := affilLoop_adass_affilAuth affildb labels acc1
    rw [h] at hu2
    have hu2b : acc2.affilAuth = acc1.affilAuth ++ u2 := hu2
    rw [hidx] at hu2b
    constructor
    · intro hlt
      have hsep : affilSepInit adassConfig nAuthors anum = "," := by
        simp [affilSepInit, adassConfig, hlt]
      rw [hsep] at hu2b
      refine ⟨toString idx ++ ("$" ++ u2), ?_⟩
      rw [hu2b]
      simp [auth_afil_form_adass, String.empty_append, String.append_assoc]
      rw [← String.append_assoc "," "$^" (toString idx ++ ("$" ++ u2))]
      rfl
    · intro hge
      have hsep : affilSepInit adassConfig nAuthors anum = "" := by
        simp [affilSepInit, adassConfig, hge]
      rw [hsep] at hu2b
      refine ⟨toString idx ++ ("$" ++ u2), ?_⟩
      rw [hu2b]
      simp [auth_afil_form_adass, String.empty_append, String.append_assoc,
        String.append_empty]

/-- Witness for C5 amended: one non-last adass author with one affiliation. -/
theorem marker_comma_amended_w :
    (0 < 2 - 1 →
      ∃ u, (affilLoop adassConfig [("L", "T")] ["L"]
        (affilAcc0 adassConfig 2 0 initState)).1.affilAuth = "," ++ ("$^" ++ u)) ∧
      (¬ 0 < 2 - 1 →
        ∃ u, (affilLoop adassConfig [("L", "T")] ["L"]
          (affilAcc0 adassConfig 2 0 initState)).1.affilAuth = "$^" ++ u) :=
  marker_comma_amended [("L", "T")] 2 0 initState "L" []
    ((affilLoop adassConfig [("L", "T")] ["L"] (affilAcc0 adassConfig 2 0 initState)).1)
    (by decide)

/-- C4 counterexample: the combined adass author command for the buffered
fragments ["X", "Y", "Z"] is "\author{X Y and Z }" — a separator (a single
space) is printed after the final fragment too, so the body is not exactly
"X Y and Z". -/
theorem combined_sep_cex :
    (finalize adassConfig { initState with authOutput := ["X", "Y", "Z"] }).headD ""
      = "\\author\x7bX Y and Z \x7d" ∧
      ("\\author\x7bX Y and Z \x7d" : String) ≠ "\\author\x7bX Y and Z\x7d" := by
  decide

theorem combinedBodyAux_structure (y z : String) :
    ∀ (init : List String) (i n : Nat), n = i + init.length + 2 →
      combinedBodyAux n i (init ++ [y, z]) =
        init.foldr (fun f r => f ++ " " ++ r) (y ++ " and " ++ (z ++ " "))
  | [], i, n, h => by
    subst h
    simp only [List.nil_append, List.length_nil, combinedBodyAux, List.foldr]
    have c1 : (i + 1 == i + 0 + 2 - 1) = true := by
      have e1 : i + 0 + 2 - 1 = i + 1 := by omega
      rw [e1]
      exact beq_self_eq_true (i + 1)
    have c2 : (i + 1 + 1 == i + 0 + 2 - 1) = false := by
      have e1 : i + 0 + 2 - 1 = i + 1 := by omega
      rw [e1]
      simp only [beq_eq_false_iff_ne]
      omega
    simp [c1, c2, String.append_empty, String.append_assoc]
  | f :: init, i, n, h => by
    have hne : (i + 1 == n - 1) = false := by
      simp only [beq_eq_false_iff_ne]
      simp only [List.length_cons] at h
      omega
    have ih := combinedBodyAux_structure y z init (i + 1) n
      (by simp only [List.length_cons] at h; omega)
    simp only [List.cons_append, combinedBodyAux, hne, List.foldr, List.append_eq]
    rw [ih]
    simp [String.append_assoc]

/-- C4 amended: the combined author body is every fragment followed by a
separator — " and " after the second-to-last fragment, a single space after
each other fragment INCLUDING the last, so the body carries a trailing space
before the closing brace. -/
theorem combined_sep_amended (init : List String) (y z : String) :
    combinedBodyAux (init ++ [y, z]).length 0 (init ++ [y, z]) =
      init.foldr (fun f r => f ++ " " ++ r) (y ++ " and " ++ (z ++ " ")) :=
  combinedBodyAux_structure y z init 0 (init ++ [y, z]).length
    (by simp only [List.length_append, List.length_cons, List.length_nil]; omega)

/-- C2 counterexample: the four-segment example address parses with the
leading spaces of the comma-split segments preserved — city " City X" and
country " Country Y" rather than the claimed "City X"/"Country Y" — and the
two-segment example leaves state and zipcode UNASSIGNED (`none`), not as
empty strings. -/
theorem addr_parse_cex :
    parseAddr ⟨none, none, none⟩ "Inst A, City X, ST 12345, Country Y"
      = Except.ok ⟨"Inst A", " City X", ⟨some "ST", some "12345", some " Country Y"⟩⟩ ∧
      (" City X" : String) ≠ "City X" ∧
      parseAddr ⟨none, none, none⟩ "Inst A, Country Y"
        = Except.ok ⟨"Inst A", "", ⟨none, none, some " Country Y"⟩⟩ :=
  ⟨rfl, by decide, rfl⟩

/-- C2 amended: the positional rules run on the raw comma-split segments
(whitespace kept, except in the whitespace-split state/zipcode field);
`city` defaults to empty, but `state`, `zipcode` and `country` are left
unassigned when their segments are missing — a run whose first author has a
two-segment address aborts with a NameError on `state` instead of degrading
silently, and on later authors the previous parse's values persist. -/
theorem addr_parse_amended :
    parseAddr ⟨none, none, none⟩ "Inst A, City X, ST 12345, Country Y"
      = Except.ok ⟨"Inst A", " City X", ⟨some "ST", some "12345", some " Country Y"⟩⟩ ∧
      parseAddr ⟨none, none, none⟩ "Inst A, Country Y"
        = Except.ok ⟨"Inst A", "", ⟨none, none, some " Country Y"⟩⟩ ∧
      parseAddr ⟨some "OLD", some "9", none⟩ "Inst A, Country Y"
        = Except.ok ⟨"Inst A", "", ⟨some "OLD", some "9", some " Country Y"⟩⟩ ∧
      run aasConfig [("c1", cexAuthC2)] [("CF", "Inst A, Country Y")] ["c1"]
        = ([], some (PyErr.nameError "state")) :=
  ⟨rfl, rfl, rfl, by decide⟩

/-- C6 (code bug): with the compile-time CSV toggle enabled, the code
formats each ROSTER entry with dict-style field access
(`"{auth[initials]} {auth[name]}".format(auth=a)`), but roster entries are
plain identifier strings, so any non-empty roster raises a TypeError and
nothing is printed — the documented comma-separated name line is never
produced. -/
theorem write_csv_type_error :
    program true aasConfig [] [] ["example"]
        = ([], some (PyErr.typeError "string indices must be integers")) ∧
      csvName "example"
        = Except.error (PyErr.typeError "string indices must be integers") :=
  ⟨by decide, rfl⟩

theorem run_spie_printed (adb : List (String × Author))
    (affildb : List (String × String)) (roster : List String) (st : LoopState)
    (h : runFrom spieConfig adb affildb roster.length 0 roster initState
      = (st, none)) :
    run spieConfig adb affildb roster = (st.printed, none) := by
  unfold run
  rw [h]
  simp [finalize, spieConfig]

theorem runFrom_spie_struct (adb : List (String × Author))
    (affildb : List (String × String)) (n : Nat) :
    ∀ (ids : List String) (anum : Nat) (st st2 : LoopState) (la : List String),
      runFrom spieConfig adb affildb n anum ids st = (st2, none) →
      AffInv spieConfig affildb st.affilset la →
      ∃ blocks : List (String × List String),
        st2.printed = st.printed ++
          (blocks.map (fun p => [p.1] ++ printStar p.2 ++ [""])).flatten ∧
        AffInv spieConfig affildb st2.affilset (la ++ (blocks.map Prod.snd).flatten)
  | [], _, st, st2, la, h, hinv => by
    simp only [runFrom, Prod.mk.injEq] at h
    refine ⟨[], ?_, ?_⟩
    · rw [← h.1]; simp
    · rw [← h.1]; simpa using hinv
  | aid :: rest, anum, st, st2, la, h, hinv => by
    rcases hp : processAuthor spieConfig adb affildb n anum aid st with ⟨stm, e⟩
    simp only [runFrom, hp] at h
    cases e with
    | some e => simp at h
    | none =>
      obtain ⟨auth, acc, b2, record, hadb, hloop, haddr, hemit⟩ :=
        processAuthor_ok spieConfig adb affildb n anum aid st stm hp
      rw [emitAuthor_spie] at hemit
      simp only [Prod.mk.injEq] at hemit
      obtain ⟨hlit, -⟩ := hemit
      have hinv0 : AffInv spieConfig affildb (affilAcc0 spieConfig n anum st).affilset
          (la ++ (affilAcc0 spieConfig n anum st).affilOutput) := by
        simpa [affilAcc0] using hinv
      have hinv1 := affilLoop_AffInv spieConfig affildb auth.affil _ acc la hloop hinv0
      have hstm_aff : stm.affilset = acc.affilset := by rw [← hlit]
      have hstm_pr : stm.printed = st.printed ++
          ["\\author" ++ ("[" ++ acc.affilAuth ++ "]") ++ "\x7b" ++
            pySubWs (pySubDotTilde auth.initials) ++ "~" ++ pySubWs auth.name ++ "\x7d"]
          ++ printStar acc.affilOutput ++ [""] := by
        rw [← hlit]
      obtain ⟨blocks, hbp, hbi⟩ := runFrom_spie_struct adb affildb n rest (anum + 1) stm st2
        (la ++ acc.affilOutput) h (by rw [hstm_aff]; exact hinv1)
      refine ⟨("\\author" ++ ("[" ++ acc.affilAuth ++ "]") ++ "\x7b" ++
        pySubWs (pySubDotTilde auth.initials) ++ "~" ++ pySubWs auth.name ++ "\x7d",
        acc.affilOutput) :: blocks, ?_, ?_⟩
      · rw [hbp, hstm_pr]
        simp [List.append_assoc]
      · simpa [List.append_assoc] using hbi

/-- C3 amended: in both buffered modes, each distinct affiliation label's
formatted line appears in the emitted output exactly once, at the position of
that label's first occurrence across authors in roster order (rendered with
index `k + 1` for position `k`): in the combined (adass) mode inside the
emitted affiliation block, and in the buffered non-combined (spie) mode as
the concatenation, in roster order, of the per-author batches of newly-seen
lines printed inside the discovering author's block.  In the default (aas)
mode the claim fails: the indexed formatted lines are never emitted and each
author's affiliation lines are re-printed per author. -/
theorem affil_dedup_buffered (adb : List (String × Author))
    (affildb : List (String × String)) (roster : List String) :
    (∀ st, runFrom adassConfig adb affildb roster.length 0 roster initState
        = (st, none) →
      st.affilset.Nodup ∧
        st.allAffil.length = st.affilset.length ∧
        (∀ k lab, st.affilset[k]? = some lab →
          ∃ txt, dbLookup affildb lab = some txt ∧
            st.allAffil[k]? = some (affil_form_adass "affil" (k + 1) txt)) ∧
        run adassConfig adb affildb roster = (finalize adassConfig st, none)) ∧
    (∀ st, runFrom spieConfig adb affildb roster.length 0 roster initState
        = (st, none) →
      st.affilset.Nodup ∧
        run spieConfig adb affildb roster = (st.printed, none) ∧
        ∃ blocks : List (String × List String),
          st.printed = (blocks.map (fun p => [p.1] ++ printStar p.2 ++ [""])).flatten ∧
          (blocks.map Prod.snd).flatten.length = st.affilset.length ∧
          ∀ k lab, st.affilset[k]? = some lab →
            ∃ txt, dbLookup affildb lab = some txt ∧
              ((blocks.map Prod.snd).flatten)[k]?
                = some (affil_form_default "affil" (k + 1) txt)) := by
  constructor
  · intro st h
    exact adass_dedup_run adb affildb roster st h
  · intro st h
    have hinv0 : AffInv spieConfig affildb initState.affilset ([] : List String) := by
      constructor
      · simp [initState]
      · intro k lab hk
        simp [initState] at hk
    obtain ⟨blocks, hbp, hbi⟩ :=
      runFrom_spie_struct adb affildb roster.length roster 0 initState st [] h hinv0
    have hnd : st.affilset.Nodup := by
      have hq := runFrom_nodup spieConfig adb affildb roster.length roster 0 initState
        (by simp [initState])
      rw [h] at hq
      exact hq
    refine ⟨hnd, run_spie_printed adb affildb roster st h, blocks, ?_, ?_, ?_⟩
    · rw [hbp]
      simp [initState]
    · have hlen := hbi.1
      simpa using hlen
    · intro k lab hk
      obtain ⟨txt, h1, h2⟩ := hbi.2 k lab hk
      refine ⟨txt, h1, ?_⟩
      simpa using h2

/-- Witness for C3 amended: a two-author roster sharing one label, run in
both buffered modes. -/
theorem affil_dedup_buffered_w :
    ((runFrom adassConfig wAdbC3 wAffdbC3 2 0 ["m1", "m2"] initState).1.affilset.Nodup ∧
      (runFrom adassConfig wAdbC3 wAffdbC3 2 0 ["m1", "m2"] initState).1.allAffil.length
        = (runFrom adassConfig wAdbC3 wAffdbC3 2 0 ["m1", "m2"] initState).1.affilset.length ∧
      run adassConfig wAdbC3 wAffdbC3 ["m1", "m2"] =
        (finalize adassConfig
          (runFrom adassConfig wAdbC3 wAffdbC3 2 0 ["m1", "m2"] initState).1, none)) ∧
    ((runFrom spieConfig wAdbC3 wAffdbC3 2 0 ["m1", "m2"] initState).1.affilset.Nodup ∧
      run spieConfig wAdbC3 wAffdbC3 ["m1", "m2"] =
        ((runFrom spieConfig wAdbC3 wAffdbC3 2 0 ["m1", "m2"] initState).1.printed, none)) := by
  constructor
  · have h := (affil_dedup_buffered wAdbC3 wAffdbC3 ["m1", "m2"]).1
      ((runFrom adassConfig wAdbC3 wAffdbC3 2 0 ["m1", "m2"] initState).1) (by decide)
    exact ⟨h.1, h.2.1, h.2.2.2⟩
  · have h := (affil_dedup_buffered wAdbC3 wAffdbC3 ["m1", "m2"]).2
      ((runFrom spieConfig wAdbC3 wAffdbC3 2 0 ["m1", "m2"] initState).1) (by decide)
    exact ⟨h.1, h.2.1⟩

theorem affilStep_mem_self (cfg : Config) (affildb : List (String × String))
    (acc : AffilAcc) (a : String) :
    a ∈ (affilStep cfg affildb acc a).1.affilset := by
  unfold affilStep
  by_cases hm : a ∈ acc.affilset
  · rw [if_pos hm]
    simpa using hm
  · rw [if_neg hm]
    cases hdb : dbLookup affildb a <;> simp

theorem affilLoop_labels_mem (cfg : Config) (affildb : List (String × String)) :
    ∀ (labels : List String) (acc acc2 : AffilAcc),
      affilLoop cfg affildb labels acc = (acc2, none) →
      ∀ l, l ∈ labels → l ∈ acc2.affilset
  | [], _, _, _, l, hl => by simp at hl
  | a :: rest, acc, acc2, h, l, hl => by
    rcases hs : affilStep cfg affildb acc a with ⟨accm, e⟩
    simp only [affilLoop, hs] at h
    cases e with
    | some e => simp at h
    | none =>
      simp only at h
      rcases List.mem_cons.mp hl with rfl | hl2
      · have h1 : l ∈ accm.affilset := by
          have hq := affilStep_mem_self cfg affildb acc l
          rw [hs] at hq
          exact hq
        obtain ⟨t, ht⟩ := affilLoop_affilset cfg affildb rest accm
        rw [h] at ht
        have ht2 : acc2.affilset = accm.affilset ++ t := ht
        rw [ht2]
        exact List.mem_append_left _ h1
      · exact affilLoop_labels_mem cfg affildb rest accm acc2 h l hl2

theorem affilLoop_all_mem (cfg : Config) (affildb : List (String × String)) :
    ∀ (labels : List String) (acc : AffilAcc), (∀ l ∈ labels, l ∈ acc.affilset) →
      ∃ m sp, affilLoop cfg affildb labels acc =
        (⟨acc.affilset, acc.affilOutput, m, sp⟩, none)
  | [], acc, _ => ⟨acc.affilAuth, acc.affilSep, rfl⟩
  | a :: rest, acc, hall => by
    have hma : a ∈ acc.affilset := hall a (by simp)
    have hs : affilStep cfg affildb acc a =
        ({ acc with
            affilAuth := cfg.auth_afil_form acc.affilAuth acc.affilSep
              (toString (acc.affilset.indexOf a + 1)),
            affilSep := "," }, none) := by
      unfold affilStep
      rw [if_pos hma]
    obtain ⟨m, sp, hrec⟩ := affilLoop_all_mem cfg affildb rest
      ({ acc with
          affilAuth := cfg.auth_afil_form acc.affilAuth acc.affilSep
            (toString (acc.affilset.indexOf a + 1)),
          affilSep := "," })
      (fun l hl => hall l (by simp [hl]))
    refine ⟨m, sp, ?_⟩
    simp only [affilLoop, hs]
    exact hrec

theorem affilLoop_adass_comma_shift (affildb : List (String × String)) :
    ∀ (labels : List String) (s o1 o2 : List String) (a c : String),
      (∀ l ∈ labels, l ∈ s) →
      (affilLoop adassConfig affildb labels ⟨s, o2, c ++ a, ","⟩).1.affilAuth
        = c ++ (affilLoop adassConfig affildb labels ⟨s, o1, a, ","⟩).1.affilAuth
  | [], s, o1, o2, a, c, _ => by simp [affilLoop]
  | l :: rest, s, o1, o2, a, c, hall => by
    have hml : l ∈ s := hall l (by simp)
    have hs2 : affilStep adassConfig affildb ⟨s, o2, c ++ a, ","⟩ l =
        (⟨s, o2, auth_afil_form_adass (c ++ a) "," (toString (s.indexOf l + 1)), ","⟩,
          none) := by
      unfold affilStep
      rw [if_pos hml]
      rfl
    have hs1 : affilStep adassConfig affildb ⟨s, o1, a, ","⟩ l =
        (⟨s, o1, auth_afil_form_adass a "," (toString (s.indexOf l + 1)), ","⟩, none) := by
      unfold affilStep
      rw [if_pos hml]
      rfl
    simp only [affilLoop, hs2, hs1]
    have hshift : auth_afil_form_adass (c ++ a) "," (toString (s.indexOf l + 1))
        = c ++ auth_afil_form_adass a "," (toString (s.indexOf l + 1)) := by
      simp [auth_afil_form_adass, String.append_assoc]
    rw [hshift]
    exact affilLoop_adass_comma_shift affildb rest s o1 o2
      (auth_afil_form_adass a "," (toString (s.indexOf l + 1))) c
      (fun x hx => hall x (by simp [hx]))

theorem affilLoop_adass_first_comma (affildb : List (String × String))
    (l : String) (rest : List String) (s o1 o2 : List String)
    (hall : ∀ x ∈ l :: rest, x ∈ s) :
    (affilLoop adassConfig affildb (l :: rest) ⟨s, o2, "", ","⟩).1.affilAuth
      = "," ++ (affilLoop adassConfig affildb (l :: rest) ⟨s, o1, "", ""⟩).1.affilAuth := by
  have hml : l ∈ s := hall l (by simp)
  have hs2 : affilStep adassConfig affildb ⟨s, o2, "", ","⟩ l =
      (⟨s, o2, auth_afil_form_adass "" "," (toString (s.indexOf l + 1)), ","⟩, none) := by
    unfold affilStep
    rw [if_pos hml]
    rfl
  have hs1 : affilStep adassConfig affildb ⟨s, o1, "", ""⟩ l =
      (⟨s, o1, auth_afil_form_adass "" "" (toString (s.indexOf l + 1)), ","⟩, none) := by
    unfold affilStep
    rw [if_pos hml]
    rfl
  simp only [affilLoop, hs2, hs1]
  have hkey : auth_afil_form_adass "" "," (toString (s.indexOf l + 1))
      = "," ++ auth_afil_form_adass "" "" (toString (s.indexOf l + 1)) := by
    simp only [auth_afil_form_adass, String.empty_append]
    rw [← String.append_assoc "," ("$^" ++ toString (List.indexOf l s + 1)) "$",
      ← String.append_assoc "," "$^" (toString (List.indexOf l s + 1))]
  rw [hkey]
  exact affilLoop_adass_comma_shift affildb rest s o1 o2
    (auth_afil_form_adass "" "" (toString (s.indexOf l + 1))) ","
    (fun x hx => hall x (by simp [hx]))

theorem adass_dup_run (adb : List (String × Author))
    (affildb : List (String × String)) (aid : String) (st : LoopState)
    (h : runFrom adassConfig adb affildb ([aid, aid]).length 0 [aid, aid] initState
      = (st, none)) :
    ∃ st1 ini sur m2,
      processAuthor adassConfig adb affildb ([aid, aid]).length 0 aid initState
        = (st1, none) ∧
      processAuthor adassConfig adb affildb ([aid, aid]).length 1 aid st1
        = (st, none) ∧
      st.allAffil = st1.allAffil ∧
      st1.authOutput = [ini ++ "~" ++ sur ++ ("," ++ m2)] ∧
      st.authOutput = [ini ++ "~" ++ sur ++ ("," ++ m2), ini ++ "~" ++ sur ++ m2] := by
  simp only [runFrom] at h
  rcases h1 : processAuthor adassConfig adb affildb ([aid, aid]).length 0 aid initState
    with ⟨st1, e1⟩
  rw [h1] at h
  cases e1 with
  | some e => simp at h
  | none =>
    simp only at h
    rcases h2 : processAuthor adassConfig adb affildb ([aid, aid]).length 1 aid st1
      with ⟨st2, e2⟩
    rw [h2] at h
    cases e2 with
    | some e => simp at h
    | none =>
      simp only [Prod.mk.injEq] at h
      obtain ⟨hst, -⟩ := h
      rw [hst] at h2
      obtain ⟨auth, acc, b2, record, hadb, hloop, haddr, hemit⟩ :=
        processAuthor_ok adassConfig adb affildb ([aid, aid]).length 0 aid initState st1 h1
      rw [emitAuthor_adass] at hemit
      simp only [Prod.mk.injEq] at hemit
      obtain ⟨hlit, -⟩ := hemit
      obtain ⟨lab0, txt, ar, sv, pv, cv, hhead, hdb, hparse, hbv, hb2, hrec⟩ :=
        addrRecordPhase_ok affildb initState.bindings acc.affilset
          (pySubWs (pySubDotTilde auth.initials)) (pySubWs auth.name)
          (auth.email.getD "") (auth.orcid.getD "") b2 record haddr
      cases hla : auth.affil with
      | nil =>
        rw [hla] at hloop
        simp only [affilLoop, Prod.mk.injEq] at hloop
        obtain ⟨hacc, -⟩ := hloop
        rw [← hacc] at hhead
        simp [affilAcc0, initState] at hhead
      | cons l rest0 =>
        have hallmem : ∀ x ∈ auth.affil, x ∈ acc.affilset :=
          affilLoop_labels_mem adassConfig affildb auth.affil
            (affilAcc0 adassConfig ([aid, aid]).length 0 initState) acc hloop
        obtain ⟨m2, sp2, hall2⟩ := affilLoop_all_mem adassConfig affildb auth.affil
          ⟨acc.affilset, [], "", ""⟩ (fun x hx => hallmem x hx)
        have hall2b : affilLoop adassConfig affildb auth.affil
            ⟨acc.affilset, [], "", ""⟩ = (⟨acc.affilset, [], m2, sp2⟩, none) := hall2
        have hloop2 : affilLoop adassConfig affildb auth.affil
            (affilAcc0 adassConfig ([aid, aid]).length 1 st1) =
            (⟨acc.affilset, [], m2, sp2⟩, none) := by
          rw [← hlit]
          exact hall2b
        have hsp := affilLoop_second_pass adassConfig affildb auth.affil
          (affilAcc0 adassConfig ([aid, aid]).length 0 initState) acc [] hloop
        have hsp2 : affilLoop adassConfig affildb auth.affil
            ⟨acc.affilset, [], "", ","⟩ =
            (⟨acc.affilset, [], acc.affilAuth, acc.affilSep⟩, none) := hsp
        have hcomma := affilLoop_adass_first_comma affildb l rest0 acc.affilset [] []
          (by rw [← hla]; exact hallmem)
        rw [← hla] at hcomma
        rw [hsp2, hall2b] at hcomma
        have hmm : acc.affilAuth = "," ++ m2 := hcomma
        have hstb : st1.bindings = b2 := by rw [← hlit]
        have haddr2 : addrRecordPhase affildb st1.bindings acc.affilset
            (pySubWs (pySubDotTilde auth.initials)) (pySubWs auth.name)
            (auth.email.getD "") (auth.orcid.getD "") = Except.ok (b2, record) := by
          rw [hstb, hb2]
          unfold addrRecordPhase
          rw [hhead]
          simp only
          rw [hdb]
          simp only
          rw [parseAddr_idem initState.bindings txt ar hparse]
          simp only
          rw [hbv]
          simp only
          rw [hrec]
        have hpa2 : processAuthor adassConfig adb affildb ([aid, aid]).length 1 aid st1 =
            ({ st1 with
                affilset := acc.affilset,
                bindings := b2,
                pAuthorOutput := st1.pAuthorOutput ++ [record],
                indexOutput := st1.indexOutput ++
                  ["%\\aindex\x7b" ++ pySubWs auth.name ++ "," ++
                    pySubWs (pySubDotTilde auth.initials) ++ "\x7d"],
                authOutput := st1.authOutput ++
                  [pySubWs (pySubDotTilde auth.initials) ++ "~" ++ pySubWs auth.name ++ m2],
                allAffil := st1.allAffil ++ [] }, none) := by
          unfold processAuthor
          rw [hadb]
          simp only
          rw [hloop2]
          simp only
          rw [haddr2]
          simp only
          rw [emitAuthor_adass]
        have h2e := hpa2.symm.trans h2
        simp only [Prod.mk.injEq] at h2e
        obtain ⟨hlit2, -⟩ := h2e
        have h4 : st1.authOutput
            = [pySubWs (pySubDotTilde auth.initials) ++ "~" ++ pySubWs auth.name
                ++ ("," ++ m2)] := by
          rw [← hlit, hmm]
          rfl
        have h5 : st.authOutput
            = [pySubWs (pySubDotTilde auth.initials) ++ "~" ++ pySubWs auth.name ++ ("," ++ m2),
               pySubWs (pySubDotTilde auth.initials) ++ "~" ++ pySubWs auth.name ++ m2] := by
          rw [← hlit2, h4]
          rfl
        have h3 : st.allAffil = st1.allAffil := by
          rw [← hlit2]
          show st1.allAffil ++ [] = st1.allAffil
          simp
        exact ⟨st1, pySubWs (pySubDotTilde auth.initials), pySubWs auth.name, m2,
          rfl, h2, h3, h4, h5⟩

/-- C10 amended: for a roster containing the same author identifier twice,
both buffered modes re-emit no affiliation line for the second occurrence and
reuse the indices assigned at the first.  In the buffered non-combined (spie)
mode an author command is emitted for each occurrence and the second block is
exactly the identical author command, one empty line from printing the empty
batch of fresh affiliation lines, and the blank separator.  In the combined
(adass) mode a buffered author fragment is accumulated for each occurrence:
the global affiliation buffer is unchanged by the second occurrence, and the
second fragment carries the same superscript marker as the first except for
the first occurrence's not-last-author leading comma.  In the default (aas)
mode the claim fails: the second occurrence re-prints the author's
affiliation lines. -/
theorem dup_author_buffered (adb : List (String × Author))
    (affildb : List (String × String)) (aid : String) :
    (∀ out : List String, run spieConfig adb affildb [aid, aid] = (out, none) →
      4 ≤ out.length ∧ out.drop (out.length - 3) = [out.headD "", "", ""]) ∧
    (∀ st : LoopState,
      runFrom adassConfig adb affildb ([aid, aid]).length 0 [aid, aid] initState
        = (st, none) →
      ∃ st1 ini sur m2,
        processAuthor adassConfig adb affildb ([aid, aid]).length 0 aid initState
          = (st1, none) ∧
        processAuthor adassConfig adb affildb ([aid, aid]).length 1 aid st1
          = (st, none) ∧
        st.allAffil = st1.allAffil ∧
        st1.authOutput = [ini ++ "~" ++ sur ++ ("," ++ m2)] ∧
        st.authOutput = [ini ++ "~" ++ sur ++ ("," ++ m2), ini ++ "~" ++ sur ++ m2]) :=
  ⟨fun out h => spie_dup_run adb affildb aid out h,
   fun st h => adass_dup_run adb affildb aid st h⟩

/-- Witness for C10 amended: the one-affiliation author `d1` listed twice,
run in both buffered modes. -/
theorem dup_author_buffered_w :
    4 ≤ (run spieConfig [("d1", wAuthC10)] wAffdbC10 ["d1", "d1"]).1.length ∧
    (runFrom adassConfig [("d1", wAuthC10)] wAffdbC10 (["d1", "d1"] : List String).length 0
        ["d1", "d1"] initState).1.authOutput.length = 2 := by
  constructor
  · exact ((dup_author_buffered [("d1", wAuthC10)] wAffdbC10 "d1").1
      (run spieConfig [("d1", wAuthC10)] wAffdbC10 ["d1", "d1"]).1 (by decide)).1
  · obtain ⟨st1, ini, sur, m2, h1, h2, h3, h4, h5⟩ :=
      (dup_author_buffered [("d1", wAuthC10)] wAffdbC10 "d1").2
        (runFrom adassConfig [("d1", wAuthC10)] wAffdbC10 (["d1", "d1"] : List String).length 0
          ["d1", "d1"] initState).1 (by decide)
    rw [h5]
    rfl
